import Mathlib

/-!
# Configuration resolver of `internal/config/config.go`

A shallow embedding of the configuration loader: the recursive map merge
`deepMerge`, the default seeding `populateDefault`, the field-by-field decoding
`unmarshal`, the environment overlay `fetchFromEnv` and the entry point `Init`,
followed by theorems about them.

Go values of type `map[string]interface{}` are embedded as key/value trees. A
Go map holds every key at most once; the embedding records this as the
predicates `Tree.keys t |>.Nodup` (one level) and `Tree.uniqueKeys` (all levels).
-/

namespace GoConfig

/-- A leaf of a configuration tree: a string, a number, a duration (in
nanoseconds, as `time.Duration`) or a boolean. -/
inductive Scalar
  | str (s : String)
  | int (n : Int)
  | dur (ns : Int)
  | bool (b : Bool)
  deriving DecidableEq, Repr

/-- The number is one a 64-bit signed integer (`int`, `time.Duration`) can hold. -/
def fitsInt64 (n : Int) : Bool :=
  decide (-(2 : Int) ^ 63 ≤ n ∧ n < (2 : Int) ^ 63)

/- `interface{}` values met in a parsed configuration and `map[string]interface{}`:
a value is a scalar or a nested map; a map is a sequence of entries. -/
mutual
inductive Value
  | scalar (s : Scalar)
  | tree (m : Tree)
inductive Tree
  | nil
  | cons (key : String) (val : Value) (rest : Tree)
end

mutual
def Value.decEq : (a b : Value) → Decidable (a = b)
  | .scalar x, .scalar y =>
    if h : x = y then isTrue (by rw [h]) else isFalse (fun e => h (Value.scalar.inj e))
  | .tree m, .tree n =>
    match Tree.decEq m n with
    | isTrue h => isTrue (by rw [h])
    | isFalse h => isFalse (fun e => h (Value.tree.inj e))
  | .scalar _, .tree _ => isFalse (fun e => Value.noConfusion e)
  | .tree _, .scalar _ => isFalse (fun e => Value.noConfusion e)
def Tree.decEq : (a b : Tree) → Decidable (a = b)
  | .nil, .nil => isTrue rfl
  | .nil, .cons _ _ _ => isFalse (fun e => Tree.noConfusion e)
  | .cons _ _ _, .nil => isFalse (fun e => Tree.noConfusion e)
  | .cons k v r, .cons k2 v2 r2 =>
    if hk : k = k2 then
      match Value.decEq v v2 with
      | isTrue hv =>
        match Tree.decEq r r2 with
        | isTrue hr => isTrue (by rw [hk, hv, hr])
        | isFalse hr => isFalse (fun e => hr (Tree.cons.inj e).2.2)
      | isFalse hv => isFalse (fun e => hv (Tree.cons.inj e).2.1)
    else isFalse (fun e => hk (Tree.cons.inj e).1)
end

instance : DecidableEq Value := Value.decEq
instance : DecidableEq Tree := Tree.decEq

/-- Map read `v, exists := m[key]`: `none` when the key is absent. -/
def Tree.get : Tree → String → Option Value
  | .nil, _ => none
  | .cons k v rest, key => if k = key then some v else rest.get key

/-- Map write `m[key] = v`: replaces the entry of `key`, or adds one. -/
def Tree.set : Tree → String → Value → Tree
  | .nil, key, v => .cons key v .nil
  | .cons k w rest, key, v => if k = key then .cons k v rest else .cons k w (rest.set key v)

/-- The inner loop of `deepMerge`, `for key, srcValue := range srcMap`, over one
source map. The recursive call `deepMerge(dstMap, srcMap)` updates the map stored
under `dst[key]` in place, which is the write `dst.set key (.tree ...)` here. -/
def deepMergeMap (dst : Tree) : Tree → Tree
  | .nil => dst
  | .cons key srcValue rest =>
    match dst.get key with
    | none => deepMergeMap (dst.set key srcValue) rest
    | some dstValue =>
      match srcValue, dstValue with
      | .tree srcMap, .tree dstMap =>
        deepMergeMap (dst.set key (.tree (deepMergeMap dstMap srcMap))) rest
      | _, _ => deepMergeMap (dst.set key srcValue) rest

/-- The function `deepMerge(dst, src...)`: the outer loop over the variadic sources. -/
def deepMerge (dst : Tree) (src : List Tree) : Tree :=
  src.foldl deepMergeMap dst


/-- The type assertion `_, ok := v.(map[string]interface{})`. -/
def Value.isTree : Value → Bool
  | .tree _ => true
  | .scalar _ => false

/-- The keys of a map, in entry order. -/
def Tree.keys : Tree → List String
  | .nil => []
  | .cons k _ rest => k :: rest.keys

/-- The value met by following a key path through nested maps; the empty path
is the value itself, and nothing lies below a scalar. -/
def Value.atPath : Value → List String → Option Value
  | v, [] => some v
  | .scalar _, _ :: _ => none
  | .tree m, k :: ks =>
    match m.get k with
    | none => none
    | some w => w.atPath ks

/-- The value a tree holds at a key path `k1.k2...kn`. -/
def Tree.atPath (t : Tree) (p : List String) : Option Value :=
  (Value.tree t).atPath p

/- Every map of the value, at every depth, holds each key once (as Go maps do). -/
mutual
def Value.uniqueKeys : Value → Bool
  | .scalar _ => true
  | .tree m => m.uniqueKeys
def Tree.uniqueKeys : Tree → Bool
  | .nil => true
  | .cons k v rest => decide (k ∉ rest.keys) && v.uniqueKeys && rest.uniqueKeys
end

/-- A key as the registry stores and looks it up: lower-case ASCII letters, digits,
`_` and `-`. Such a key is not changed by the registry's lower-casing and holds no
key delimiter `.`, so a key path reads it as one segment. -/
def plainKey (k : String) : Bool :=
  k.data.all (fun c => c.isLower || c.isDigit || c == '_' || c == '-')

/- Every key of the value, at every depth, is a plain key. -/
mutual
def Value.plainKeys : Value → Bool
  | .scalar _ => true
  | .tree m => m.plainKeys
def Tree.plainKeys : Tree → Bool
  | .nil => true
  | .cons k v rest => plainKey k && v.plainKeys && rest.plainKeys
end

/-- A tree as the registry holds it after reading a file: every map has distinct
keys (it is a Go map) and every key is plain, so that the key paths the loader
passes to the registry address its entries segment by segment. -/
def Tree.stored (t : Tree) : Bool :=
  t.uniqueKeys && t.plainKeys

/-- The value the loop body of `deepMerge` leaves at a key that `src` holds. -/
def mergeEntry (dstValue : Option Value) (srcValue : Value) : Value :=
  match dstValue, srcValue with
  | some (.tree dstMap), .tree srcMap => .tree (deepMergeMap dstMap srcMap)
  | _, _ => srcValue


/-! ## The settings registry (package `viper`) and the decoder (`mapstructure`)

The loader keeps its state in the process-wide registry of the `viper` library and
decodes through `mapstructure`; it reads the environment through `os` and
`godotenv`. These packages are imported by `config.go` and are not part of the
repository. Each call the loader makes is embedded below by a definition named
after the call, whose comment says what the call does. The registry is a record
holding the search paths, the configuration name, the tree read from the last
configuration file and the tree of defaults. Keys are single path segments: the
key delimiter `.` only occurs in the key paths the loader passes to the registry,
which are written here as lists of segments.
-/

abbrev Err := String

/-- One `time.Second`, in nanoseconds. -/
def second : Int := 1000000000
/-- One `time.Minute`, in nanoseconds. -/
def minute : Int := 60 * second
/-- One `time.Hour`, in nanoseconds. -/
def hour : Int := 60 * minute

def defaultHTTPPort : String := "8000"
def defaultHTTPRWTimeout : Int := 10 * second
def defaultHTTPMaxHeaderMegabytes : Int := 1
def defaultAccessTokenTTL : Int := 15 * hour
def defaultRefreshTokenTTL : Int := 24 * hour
def defaultVerificationCodeLength : Int := 8

structure TokenConfig where
  PrivateKey : String
  PublicKey : String
  MaxAge : Int
  deriving DecidableEq, Repr

structure JWTConfig where
  SecretKey : String
  AccessToken : TokenConfig
  RefreshToken : TokenConfig
  deriving DecidableEq, Repr

structure AuthConfig where
  JWT : JWTConfig
  PasswordSalt : String
  VerificationCodeLength : Int
  deriving DecidableEq, Repr

structure HTTPConfig where
  Host : String
  Port : String
  ReadTimeout : Int
  WriteTimeOut : Int
  MaxHeaderMegabyte : Int
  deriving DecidableEq, Repr

structure Config where
  Environment : String
  HTTP : HTTPConfig
  Auth : AuthConfig
  deriving DecidableEq, Repr

/-- The zero value of `Config`, as declared by `var cfg Config`. -/
def Config.zero : Config :=
  { Environment := ""
    HTTP := { Host := "", Port := "", ReadTimeout := 0, WriteTimeOut := 0, MaxHeaderMegabyte := 0 }
    Auth := { JWT := { SecretKey := ""
                       AccessToken := { PrivateKey := "", PublicKey := "", MaxAge := 0 }
                       RefreshToken := { PrivateKey := "", PublicKey := "", MaxAge := 0 } }
              PasswordSalt := ""
              VerificationCodeLength := 0 } }

/-- Removes the entry of a key from a map. -/
def Tree.erase : Tree → String → Tree
  | .nil, _ => .nil
  | .cons k v rest, key => if k = key then rest.erase key else .cons k v (rest.erase key)

/-- Modelled from the spec: a nested map rebuilt from its leaf keys, as
`viper.AllSettings` (package `viper`, absent from the sources) builds its result.
Every scalar is kept under its key path; a nested map that holds no scalar at any
depth contributes no key and is left out. -/
def Tree.prune : Tree → Tree
  | .nil => .nil
  | .cons k (.scalar s) rest => .cons k (.scalar s) (Tree.prune rest)
  | .cons k (.tree m) rest =>
    match Tree.prune m with
    | .nil => Tree.prune rest
    | .cons k2 v2 r2 => .cons k (.tree (.cons k2 v2 r2)) (Tree.prune rest)

/-- What rebuilding from leaf keys leaves of one entry: a scalar stays, a nested map
stays (rebuilt) when it holds a scalar at some depth and goes otherwise. -/
def Value.pruned : Value → Option Value
  | .scalar s => some (.scalar s)
  | .tree m =>
    match m.prune with
    | .nil => none
    | .cons k v rest => some (.tree (.cons k v rest))

/-- Modelled from the spec: the nested map built by `viper.AllSettings` (package
`viper`, absent from the sources), for a configuration tree and a tree of defaults.
The map is rebuilt from the leaf keys of both trees, each with the value
`viper.Get` returns for it: a scalar of the configuration keeps its value, two
nested maps are combined key by key, a nested map without any leaf key is left
out, a default supplies a key the configuration lacks, and where the defaults
hold a scalar and the configuration a nested map the key gets that map as it is. -/
def Tree.over : Tree → Tree → Tree
  | .nil, d => d.prune
  | .cons k (.scalar s) rest, d => .cons k (.scalar s) (Tree.over rest (d.erase k))
  | .cons k (.tree m) rest, d =>
    match d.get k with
    | some (.scalar _) => .cons k (.tree m) (Tree.over rest (d.erase k))
    | some (.tree dm) =>
      match Tree.over m dm with
      | .nil => Tree.over rest (d.erase k)
      | .cons k2 v2 r2 => .cons k (.tree (.cons k2 v2 r2)) (Tree.over rest (d.erase k))
    | none =>
      match Tree.over m .nil with
      | .nil => Tree.over rest (d.erase k)
      | .cons k2 v2 r2 => .cons k (.tree (.cons k2 v2 r2)) (Tree.over rest (d.erase k))

/-- Modelled from the spec: the nested write of `viper.SetDefault` (package `viper`,
absent from the sources). It walks the key path, creating a map for
every missing intermediate key and replacing an intermediate scalar by a new map,
then writes the value under the last key. -/
def Tree.setPath : Tree → List String → Value → Tree
  | t, [], _ => t
  | t, [k], v => t.set k v
  | t, k :: ks, v =>
    match t.get k with
    | some (.tree m) => t.set k (.tree (Tree.setPath m ks v))
    | _ => t.set k (.tree (Tree.setPath .nil ks v))

/-- Modelled from the spec: the test `isPathShadowedInDeepMap` of package `viper`
(absent from the sources). A proper, non-empty initial segment of the key path
holds a scalar in the tree: the path is shadowed there, no value can lie at it. -/
def Tree.shadows : Tree → List String → Bool
  | _, [] => false
  | _, [_] => false
  | t, k :: ks =>
    match t.get k with
    | some (.scalar _) => true
    | some (.tree m) => Tree.shadows m ks
    | none => false

/-- Modelled from the spec: the merge behind `viper.MergeConfigMap` (package `viper`,
absent from the sources). Every entry of `src` is written into
`tgt`; where the target holds a map, a map is merged into it recursively and
anything else is skipped; any other entry replaces the target's. -/
def mergeMaps : (src : Tree) → (tgt : Tree) → Tree
  | .nil, tgt => tgt
  | .cons sk sv rest, tgt =>
    match tgt.get sk with
    | none => mergeMaps rest (tgt.set sk sv)
    | some (.tree tm) =>
      match sv with
      | .tree sm => mergeMaps rest (tgt.set sk (.tree (mergeMaps sm tm)))
      | .scalar _ => mergeMaps rest tgt
    | some (.scalar _) => mergeMaps rest (tgt.set sk sv)

/-- Modelled from the spec: the files the loader reads, as seen through the
libraries; the file system is outside the program. It gives the tree (or the
error) `viper.ReadInConfig` obtains for a list of search paths and a configuration
name, and the variables (or the error) `godotenv` parses from a dotenv file. -/
structure FS where
  readConfig : List String → String → Except Err Tree
  readDotenv : String → Except Err (List (String × String))

/-- Modelled from the spec: the global registry of package `viper` (absent from the
sources), reduced to the parts the loader's calls touch. -/
structure Viper where
  configPaths : List String
  configName : String
  config : Tree
  defaults : Tree

/-- Modelled from the spec: the registry of a process that has made no call yet. -/
def Viper.New : Viper :=
  { configPaths := [], configName := "config", config := .nil, defaults := .nil }

/-- Modelled from the spec: the call `viper.AddConfigPath`, which adds a search path unless already listed. -/
def Viper.AddConfigPath (v : Viper) (folder : String) : Viper :=
  if folder ∈ v.configPaths then v else { v with configPaths := v.configPaths ++ [folder] }

/-- Modelled from the spec: the call `viper.SetConfigName`. -/
def Viper.SetConfigName (v : Viper) (name : String) : Viper :=
  { v with configName := name }

/-- Modelled from the spec: the call `viper.ReadInConfig`. On success the tree read replaces the registry's
configuration; on failure the registry is left as it was. -/
def Viper.ReadInConfig (fs : FS) (v : Viper) : Except Err Viper :=
  match fs.readConfig v.configPaths v.configName with
  | .error err => .error err
  | .ok t => .ok { v with config := t }

/-- Modelled from the spec: the call `viper.Get` on a key path, restricted to the two
sources the loader fills. It returns the configuration's value when there is one,
nothing when the path is shadowed by a scalar of the configuration, and the
default otherwise. -/
def Viper.Get (v : Viper) (key : List String) : Option Value :=
  match v.config.atPath key with
  | some x => some x
  | none => if v.config.shadows key then none else v.defaults.atPath key

/-- Modelled from the spec: the call `viper.AllSettings`, every setting of the registry as one nested map,
the configuration laid over the defaults. -/
def Viper.AllSettings (v : Viper) : Tree :=
  v.config.over v.defaults

/-- Modelled from the spec: the call `viper.MergeConfigMap`, which merges a map into the registry's configuration;
it reports no error. -/
def Viper.MergeConfigMap (v : Viper) (cfg : Tree) : Viper × Option Err :=
  ({ v with config := mergeMaps cfg v.config }, none)

/-- Modelled from the spec: the call `viper.SetDefault`. -/
def Viper.SetDefault (v : Viper) (key : List String) (value : Value) : Viper :=
  { v with defaults := v.defaults.setPath key value }

/-- Modelled from the spec: the decoders of package `mapstructure` (absent from the
sources), taken as a parameter, for the three field types of `Config`, with the
one law the development relies on: a value that already has the field's type
decodes to itself. For the two numeric types, `int` and `time.Duration` (64 bits),
the law covers the numbers the type can hold. -/
structure Decoder where
  string : Value → Except Err String
  int : Value → Except Err Int
  duration : Value → Except Err Int
  string_str : ∀ s, string (.scalar (.str s)) = .ok s
  int_int : ∀ n, fitsInt64 n = true → int (.scalar (.int n)) = .ok n
  duration_dur : ∀ d, fitsInt64 d = true → duration (.scalar (.dur d)) = .ok d

/-- Modelled from the spec: the call `viper.UnmarshalKey(key, &out)`, which decodes the value of the key into the
variable; a key without a value leaves the variable as it is. The result is the new
content of the variable, or the decoding error. -/
def Viper.UnmarshalKey {α : Type} (v : Viper) (key : List String)
    (decode : Value → Except Err α) (out : α) : Except Err α :=
  match v.Get key with
  | none => .ok out
  | some x => decode x

/-! ## The loader -/

/-- The process environment: the variables that are set, with their values. -/
abbrev Environ := List (String × String)

/-- Modelled from the spec: the call `os.Getenv`, the value of the variable, empty when it is not set. -/
def Getenv (environ : Environ) (key : String) : String :=
  match environ.lookup key with
  | some value => value
  | none => ""

/-- Modelled from the spec: the call `godotenv.Load` (package `godotenv`, absent from
the sources) on the parsed variables of a dotenv file. A variable is set unless the
process environment already has it. -/
def godotenvLoad (environ : Environ) : List (String × String) → Environ
  | [] => environ
  | (key, value) :: rest =>
    match environ.lookup key with
    | some _ => godotenvLoad environ rest
    | none => godotenvLoad (environ ++ [(key, value)]) rest

/-- The process state the loader works on. -/
structure World where
  viper : Viper
  environ : Environ

/-- How a call of `Init` ends: it returns its pair of results, or `log.Fatalf`
ends the process. -/
inductive Outcome
  | returned (cfg : Option Config) (err : Option Err)
  | fatal (err : Err)
  deriving DecidableEq, Repr

def populateDefault (v : Viper) : Viper :=
  let v := v.SetDefault ["http", "port"] (.scalar (.str defaultHTTPPort))
  let v := v.SetDefault ["http", "read_timeout"] (.scalar (.dur defaultHTTPRWTimeout))
  let v := v.SetDefault ["http", "write_timeout"] (.scalar (.dur defaultHTTPRWTimeout))
  let v := v.SetDefault ["http", "max_header_megabyte"] (.scalar (.int defaultHTTPMaxHeaderMegabytes))
  let v := v.SetDefault ["auth", "verification_code_length"]
    (.scalar (.int defaultVerificationCodeLength))
  let v := v.SetDefault ["auth", "access_token", "max_age"] (.scalar (.dur defaultAccessTokenTTL))
  let v := v.SetDefault ["auth", "refresh_token", "max_age"] (.scalar (.dur defaultRefreshTokenTTL))
  v

def parseConfig (fs : FS) (folder : String) (env : String) (v : Viper) : Viper × Option Err :=
  let v := v.AddConfigPath folder
  let v := v.SetConfigName "main"
  match v.ReadInConfig fs with
  | .error err => (v, some err)
  | .ok v =>
    let baseConf := v.AllSettings
    let v := v.SetConfigName env
    match v.ReadInConfig fs with
    | .error err => (v, some err)
    | .ok v =>
      let envConf := v.AllSettings
      let baseConf := deepMerge baseConf [envConf]
      v.MergeConfigMap baseConf

/-- The function `unmarshal(config *Config) error`. The fields are written through
the pointer as they are decoded, so the result is the structure as the call
leaves it together with the error returned. -/
def unmarshal (v : Viper) (dec : Decoder) (config : Config) : Config × Option Err :=
  -- http
  match v.UnmarshalKey ["http", "port"] dec.string config.HTTP.Port with
  | .error err => (config, some err)
  | .ok x =>
  let config := { config with HTTP := { config.HTTP with Port := x } }
  match v.UnmarshalKey ["http", "max_header_megabyte"] dec.int config.HTTP.MaxHeaderMegabyte with
  | .error err => (config, some err)
  | .ok x =>
  let config := { config with HTTP := { config.HTTP with MaxHeaderMegabyte := x } }
  match v.UnmarshalKey ["http", "read_timeout"] dec.duration config.HTTP.ReadTimeout with
  | .error err => (config, some err)
  | .ok x =>
  let config := { config with HTTP := { config.HTTP with ReadTimeout := x } }
  match v.UnmarshalKey ["http", "write_timeout"] dec.duration config.HTTP.WriteTimeOut with
  | .error err => (config, some err)
  | .ok x =>
  let config := { config with HTTP := { config.HTTP with WriteTimeOut := x } }
  -- auth
  match v.UnmarshalKey ["auth", "verification_code_length"] dec.int
      config.Auth.VerificationCodeLength with
  | .error err => (config, some err)
  | .ok x =>
  let config := { config with Auth := { config.Auth with VerificationCodeLength := x } }
  -- jwt access_token
  match v.UnmarshalKey ["jwt", "access_token", "private_key"] dec.string
      config.Auth.JWT.AccessToken.PrivateKey with
  | .error err => (config, some err)
  | .ok x =>
  let config := { config with Auth := { config.Auth with JWT := { config.Auth.JWT with
    AccessToken := { config.Auth.JWT.AccessToken with PrivateKey := x } } } }
  match v.UnmarshalKey ["jwt", "access_token", "public_key"] dec.string
      config.Auth.JWT.AccessToken.PublicKey with
  | .error err => (config, some err)
  | .ok x =>
  let config := { config with Auth := { config.Auth with JWT := { config.Auth.JWT with
    AccessToken := { config.Auth.JWT.AccessToken with PublicKey := x } } } }
  match v.UnmarshalKey ["jwt", "access_token", "max_age"] dec.duration
      config.Auth.JWT.AccessToken.MaxAge with
  | .error err => (config, some err)
  | .ok x =>
  let config := { config with Auth := { config.Auth with JWT := { config.Auth.JWT with
    AccessToken := { config.Auth.JWT.AccessToken with MaxAge := x } } } }
  -- jwt refresh_token
  match v.UnmarshalKey ["jwt", "refresh_token", "private_key"] dec.string
      config.Auth.JWT.RefreshToken.PrivateKey with
  | .error err => (config, some err)
  | .ok x =>
  let config := { config with Auth := { config.Auth with JWT := { config.Auth.JWT with
    RefreshToken := { config.Auth.JWT.RefreshToken with PrivateKey := x } } } }
  match v.UnmarshalKey ["jwt", "refresh_token", "public_key"] dec.string
      config.Auth.JWT.RefreshToken.PublicKey with
  | .error err => (config, some err)
  | .ok x =>
  let config := { config with Auth := { config.Auth with JWT := { config.Auth.JWT with
    RefreshToken := { config.Auth.JWT.RefreshToken with PublicKey := x } } } }
  match v.UnmarshalKey ["jwt", "refresh_token", "max_age"] dec.duration
      config.Auth.JWT.RefreshToken.MaxAge with
  | .error err => (config, some err)
  | .ok x =>
  let config := { config with Auth := { config.Auth with JWT := { config.Auth.JWT with
    RefreshToken := { config.Auth.JWT.RefreshToken with MaxAge := x } } } }
  (config, none)

/-- The function `fetchFromEnv`: loads the dotenv file of the directory into the
process environment and copies four variables into the structure. A dotenv file
that cannot be loaded ends the process (`log.Fatalf`), which is the error result. -/
def fetchFromEnv (fs : FS) (configsDir : String) (config : Config) (environ : Environ) :
    Except Err (Config × Environ) :=
  match fs.readDotenv (configsDir ++ "/.env") with
  | .error err => .error err
  | .ok vars =>
    let environ := godotenvLoad environ vars
    let config := { config with Auth := { config.Auth with PasswordSalt := Getenv environ "PASSWORD_SALT" } }
    let config := { config with Auth := { config.Auth with JWT := { config.Auth.JWT with
      SecretKey := Getenv environ "JWT_SECRET_KEY" } } }
    let config := { config with HTTP := { config.HTTP with Host := Getenv environ "HTTP_HOST" } }
    let config := { config with Environment := Getenv environ "APP_ENV" }
    .ok (config, environ)

/-- The function `Init(configsDir, env)`, on the process state it reads and leaves. -/
def Init (fs : FS) (dec : Decoder) (configsDir : String) (env : String) (w : World) :
    Outcome × World :=
  match parseConfig fs configsDir env w.viper with
  | (v, some err) => (.returned none (some err), { w with viper := v })
  | (v, none) =>
    let v := populateDefault v
    let cfg := Config.zero
    match unmarshal v dec cfg with
    | (_, some err) => (.returned none (some err), { w with viper := v })
    | (cfg, none) =>
      match fetchFromEnv fs configsDir cfg w.environ with
      | .error err => (.fatal err, { w with viper := v })
      | .ok (cfg, environ) => (.returned (some cfg) none, { viper := v, environ := environ })

/-- A decoder that accepts exactly the values of the field's own type. -/
def strictDecoder : Decoder :=
  { string := fun x => match x with
      | .scalar (.str s) => .ok s
      | _ => .error "expected type string"
    int := fun x => match x with
      | .scalar (.int n) => .ok n
      | _ => .error "expected type int"
    duration := fun x => match x with
      | .scalar (.dur d) => .ok d
      | _ => .error "expected type time.Duration"
    string_str := fun _ => rfl
    int_int := fun _ _ => rfl
    duration_dur := fun _ _ => rfl }

/-! ## Example inputs -/

/-- A base configuration: `http.port`, `http.read_timeout = 10s` and
`auth.verification_code_length`. -/
def exampleBase : Tree :=
  .cons "http" (.tree (.cons "port" (.scalar (.str "4051"))
      (.cons "read_timeout" (.scalar (.dur (10 * second))) .nil)))
    (.cons "auth" (.tree (.cons "verification_code_length" (.scalar (.int 150)) .nil)) .nil)

/-- An environment configuration: `http.read_timeout = 20s` and a token key. -/
def exampleEnv : Tree :=
  .cons "http" (.tree (.cons "read_timeout" (.scalar (.dur (20 * second))) .nil))
    (.cons "jwt" (.tree (.cons "access_token" (.tree
      (.cons "private_key" (.scalar (.str "test-2")) .nil)) .nil)) .nil)

/-- An environment configuration that holds a scalar where the base has a map. -/
def exampleEnvFlat : Tree :=
  .cons "http" (.scalar (.bool false)) .nil

/-- A configuration directory holding `main`, `test` and a dotenv file. -/
def exampleFS : FS where
  readConfig := fun _ name =>
    if name = "main" then .ok exampleBase
    else if name = "test" then .ok exampleEnv
    else .error "Config File Not Found"
  readDotenv := fun _ =>
    .ok [("PASSWORD_SALT", "salt-test"), ("JWT_SECRET_KEY", "secret-key-test"),
      ("HTTP_HOST", "local.test"), ("APP_ENV", "test")]

/-- A directory without any configuration file. -/
def emptyFS : FS where
  readConfig := fun _ _ => .error "Config File Not Found"
  readDotenv := fun _ => .error "no such file"

/-- A process that has not touched the registry, with one variable set. -/
def exampleWorld : World :=
  { viper := Viper.New, environ := [("HTTP_HOST", "local.test")] }

/-- What a first `Init` returns for `exampleFS` in `exampleWorld`. -/
def exampleResolved : Config :=
  { Environment := "test"
    HTTP := { Host := "local.test", Port := "4051", ReadTimeout := 20 * second,
              WriteTimeOut := 10 * second, MaxHeaderMegabyte := 1 }
    Auth := { JWT := { SecretKey := "secret-key-test"
                       AccessToken := { PrivateKey := "test-2", PublicKey := "", MaxAge := 0 }
                       RefreshToken := { PrivateKey := "", PublicKey := "", MaxAge := 0 } }
              PasswordSalt := "salt-test"
              VerificationCodeLength := 150 } }

/-! ## The key mapping of `unmarshal` as a table -/

/-- The eleven fields `unmarshal` fills, one per `viper.UnmarshalKey` statement. -/
inductive Field
  | httpPort
  | httpMaxHeaderMegabyte
  | httpReadTimeout
  | httpWriteTimeOut
  | authVerificationCodeLength
  | accessPrivateKey
  | accessPublicKey
  | accessMaxAge
  | refreshPrivateKey
  | refreshPublicKey
  | refreshMaxAge
  deriving DecidableEq, Repr

/-- The fields in the order of the statements of `unmarshal`. -/
def mappingOrder : List Field :=
  [.httpPort, .httpMaxHeaderMegabyte, .httpReadTimeout, .httpWriteTimeOut,
   .authVerificationCodeLength, .accessPrivateKey, .accessPublicKey, .accessMaxAge,
   .refreshPrivateKey, .refreshPublicKey, .refreshMaxAge]

/-- The key path `unmarshal` reads for a field. -/
def Field.key : Field → List String
  | .httpPort => ["http", "port"]
  | .httpMaxHeaderMegabyte => ["http", "max_header_megabyte"]
  | .httpReadTimeout => ["http", "read_timeout"]
  | .httpWriteTimeOut => ["http", "write_timeout"]
  | .authVerificationCodeLength => ["auth", "verification_code_length"]
  | .accessPrivateKey => ["jwt", "access_token", "private_key"]
  | .accessPublicKey => ["jwt", "access_token", "public_key"]
  | .accessMaxAge => ["jwt", "access_token", "max_age"]
  | .refreshPrivateKey => ["jwt", "refresh_token", "private_key"]
  | .refreshPublicKey => ["jwt", "refresh_token", "public_key"]
  | .refreshMaxAge => ["jwt", "refresh_token", "max_age"]

/-- The content of a field of a `Config`, tagged with the field's Go type. -/
def Field.read : Field → Config → Scalar
  | .httpPort, c => .str c.HTTP.Port
  | .httpMaxHeaderMegabyte, c => .int c.HTTP.MaxHeaderMegabyte
  | .httpReadTimeout, c => .dur c.HTTP.ReadTimeout
  | .httpWriteTimeOut, c => .dur c.HTTP.WriteTimeOut
  | .authVerificationCodeLength, c => .int c.Auth.VerificationCodeLength
  | .accessPrivateKey, c => .str c.Auth.JWT.AccessToken.PrivateKey
  | .accessPublicKey, c => .str c.Auth.JWT.AccessToken.PublicKey
  | .accessMaxAge, c => .dur c.Auth.JWT.AccessToken.MaxAge
  | .refreshPrivateKey, c => .str c.Auth.JWT.RefreshToken.PrivateKey
  | .refreshPublicKey, c => .str c.Auth.JWT.RefreshToken.PublicKey
  | .refreshMaxAge, c => .dur c.Auth.JWT.RefreshToken.MaxAge

/-- The decoder `unmarshal` applies for a field, by the field's Go type. -/
def Field.decode (dec : Decoder) : Field → Value → Except Err Scalar
  | .httpPort, x => (dec.string x).map .str
  | .httpMaxHeaderMegabyte, x => (dec.int x).map .int
  | .httpReadTimeout, x => (dec.duration x).map .dur
  | .httpWriteTimeOut, x => (dec.duration x).map .dur
  | .authVerificationCodeLength, x => (dec.int x).map .int
  | .accessPrivateKey, x => (dec.string x).map .str
  | .accessPublicKey, x => (dec.string x).map .str
  | .accessMaxAge, x => (dec.duration x).map .dur
  | .refreshPrivateKey, x => (dec.string x).map .str
  | .refreshPublicKey, x => (dec.string x).map .str
  | .refreshMaxAge, x => (dec.duration x).map .dur

/-- The error, if any, that decoding the key of a field raises in a registry. -/
def Field.error (v : Viper) (dec : Decoder) (f : Field) : Option Err :=
  match v.Get f.key with
  | none => none
  | some x =>
    match f.decode dec x with
    | .error err => some err
    | .ok _ => none

/-- Stores a decoded value in a field; a value of another type is not stored. -/
def Field.write : Field → Scalar → Config → Config
  | .httpPort, .str x, c => { c with HTTP := { c.HTTP with Port := x } }
  | .httpMaxHeaderMegabyte, .int x, c => { c with HTTP := { c.HTTP with MaxHeaderMegabyte := x } }
  | .httpReadTimeout, .dur x, c => { c with HTTP := { c.HTTP with ReadTimeout := x } }
  | .httpWriteTimeOut, .dur x, c => { c with HTTP := { c.HTTP with WriteTimeOut := x } }
  | .authVerificationCodeLength, .int x, c =>
    { c with Auth := { c.Auth with VerificationCodeLength := x } }
  | .accessPrivateKey, .str x, c => { c with Auth := { c.Auth with JWT := { c.Auth.JWT with
      AccessToken := { c.Auth.JWT.AccessToken with PrivateKey := x } } } }
  | .accessPublicKey, .str x, c => { c with Auth := { c.Auth with JWT := { c.Auth.JWT with
      AccessToken := { c.Auth.JWT.AccessToken with PublicKey := x } } } }
  | .accessMaxAge, .dur x, c => { c with Auth := { c.Auth with JWT := { c.Auth.JWT with
      AccessToken := { c.Auth.JWT.AccessToken with MaxAge := x } } } }
  | .refreshPrivateKey, .str x, c => { c with Auth := { c.Auth with JWT := { c.Auth.JWT with
      RefreshToken := { c.Auth.JWT.RefreshToken with PrivateKey := x } } } }
  | .refreshPublicKey, .str x, c => { c with Auth := { c.Auth with JWT := { c.Auth.JWT with
      RefreshToken := { c.Auth.JWT.RefreshToken with PublicKey := x } } } }
  | .refreshMaxAge, .dur x, c => { c with Auth := { c.Auth with JWT := { c.Auth.JWT with
      RefreshToken := { c.Auth.JWT.RefreshToken with MaxAge := x } } } }
  | _, _, c => c

/-- One `viper.UnmarshalKey` statement of `unmarshal`, read off the table. -/
def Field.step (v : Viper) (dec : Decoder) (f : Field) (c : Config) : Except Err Config :=
  match v.Get f.key with
  | none => .ok c
  | some x =>
    match f.decode dec x with
    | .error err => .error err
    | .ok s => .ok (f.write s c)

/-- The statements of a list of fields run in order, stopping at the first error. -/
def runFields (v : Viper) (dec : Decoder) : List Field → Config → Config × Option Err
  | [], c => (c, none)
  | f :: rest, c =>
    match f.step v dec c with
    | .error err => (c, some err)
    | .ok c2 => runFields v dec rest c2

/-- The shape of every statement of `unmarshal`: return the error with the
structure as it stands, or go on with the decoded value. -/
def andThen {α : Type} (r : Except Err α) (c : Config) (k : α → Config × Option Err) :
    Config × Option Err :=
  match r with
  | .error err => (c, some err)
  | .ok x => k x

/-- A base configuration with two values of the wrong type. -/
def exampleBadBase : Tree :=
  .cons "http" (.tree (.cons "max_header_megabyte" (.scalar (.str "ten"))
    (.cons "read_timeout" (.scalar (.bool true)) .nil))) .nil

/-- A configuration directory whose `main` file is `exampleBadBase`. -/
def exampleBadFS : FS where
  readConfig := fun _ name =>
    if name = "main" then .ok exampleBadBase
    else if name = "test" then .ok exampleEnv
    else .error "Config File Not Found"
  readDotenv := fun _ => .ok []

/-- What `mergeMaps` leaves at a key that `src` holds, given the target's entry. -/
def mergeMapsEntry (tgtValue : Option Value) (srcValue : Value) : Value :=
  match tgtValue with
  | none => srcValue
  | some (.tree tm) =>
    match srcValue with
    | .tree sm => .tree (mergeMaps sm tm)
    | .scalar _ => .tree tm
  | some (.scalar _) => srcValue

/-- The entries of one map followed by those of another. -/
def Tree.append : Tree → Tree → Tree
  | .nil, u => u
  | .cons k v rest, u => .cons k v (Tree.append rest u)

/-- The nested map of an entry, empty when the entry is absent or a scalar. -/
def treeOf : Option Value → Tree
  | some (.tree m) => m
  | _ => .nil

/-- Whether a scalar lies strictly above the end of a key path that starts at this
value (the value itself included). -/
def Value.shadowsBelow : Value → List String → Bool
  | .scalar _, ks => !ks.isEmpty
  | .tree m, ks => m.shadows ks

/-- What `viper.Get` can see of an entry along a key path: the value at the end of
the path. -/
def lookupFrom (o : Option Value) (ks : List String) : Option Value :=
  match o with
  | none => none
  | some w => w.atPath ks

/-- Whether the entry shadows a key path that continues below it. -/
def shadowsFrom (o : Option Value) (ks : List String) : Bool :=
  match o with
  | none => false
  | some w => w.shadowsBelow ks

/-- Two entries are read alike along a key path: a scalar of the first is a scalar
of the second, a path the first neither holds nor shadows is neither held nor
shadowed by the second, and a path the first shadows is shadowed by the second. -/
def AgreeFrom (m r : Option Value) (ks : List String) : Prop :=
  (∀ s, lookupFrom m ks = some (.scalar s) → lookupFrom r ks = some (.scalar s)) ∧
  (lookupFrom m ks = none → shadowsFrom m ks = false →
    lookupFrom r ks = none ∧ shadowsFrom r ks = false) ∧
  (shadowsFrom m ks = true → shadowsFrom r ks = true)

/-- Two trees are read alike at a key path. -/
def Agree (M R : Tree) (p : List String) : Prop :=
  AgreeFrom (some (.tree M)) (some (.tree R)) p

/-- The defaults a registry without defaults holds after `populateDefault`. -/
def seededDefaults : Tree :=
  (populateDefault Viper.New).defaults

/-- What a second `Init` on `exampleFS` returns in the same process. -/
def exampleResolvedAgain : Config :=
  { exampleResolved with
    HTTP := { exampleResolved.HTTP with Port := "8000" }
    Auth := { exampleResolved.Auth with VerificationCodeLength := 8 } }

/-! ## Properties of the merge -/

theorem Tree.get_set (t : Tree) (k k2 : String) (v : Value) :
    (t.set k v).get k2 = if k = k2 then some v else t.get k2 := by
  match t with
  | .nil => simp [Tree.set, Tree.get]
  | .cons a w rest =>
    have ih := Tree.get_set rest k k2 v
    by_cases h : a = k
    · subst h
      by_cases h2 : a = k2 <;> simp [Tree.set, Tree.get, h2]
    · by_cases h2 : a = k2
      · subst h2
        have : ¬ k = a := fun e => h e.symm
        simp [Tree.set, Tree.get, h, this]
      · simp [Tree.set, Tree.get, h, h2, ih]

theorem deepMergeMap_cons (dst : Tree) (a : String) (sv : Value) (rest : Tree) :
    deepMergeMap dst (.cons a sv rest) =
      deepMergeMap (dst.set a (mergeEntry (dst.get a) sv)) rest := by
  rw [deepMergeMap]
  cases hg : dst.get a with
  | none => simp [mergeEntry]
  | some dv =>
    cases sv with
    | scalar s => simp [mergeEntry]
    | tree sm =>
      cases dv with
      | scalar d => simp [mergeEntry]
      | tree dm => simp [mergeEntry]

theorem Tree.get_eq_none_iff (t : Tree) (k : String) : t.get k = none ↔ k ∉ t.keys := by
  match t with
  | .nil => simp [Tree.get, Tree.keys]
  | .cons a w rest =>
    have ih := Tree.get_eq_none_iff rest k
    by_cases h : a = k
    · simp [Tree.get, Tree.keys, h]
    · have h2 : ¬ k = a := fun e => h e.symm
      simp [Tree.get, Tree.keys, h, h2, ih]

theorem Tree.mem_keys_iff (t : Tree) (k : String) : k ∈ t.keys ↔ ∃ v, t.get k = some v := by
  have h := Tree.get_eq_none_iff t k
  cases hg : t.get k with
  | none => simp [h.mp hg]
  | some v =>
    have : ¬ (k ∉ t.keys) := fun hn => by rw [h.mpr hn] at hg; cases hg
    simp only [not_not] at this
    simp [this]

theorem deepMergeMap_get (src : Tree) : ∀ (dst : Tree) (k : String),
    src.keys.Nodup →
    (deepMergeMap dst src).get k =
      match src.get k with
      | none => dst.get k
      | some sv => some (mergeEntry (dst.get k) sv) := by
  match src with
  | .nil => intro dst k _; simp [deepMergeMap, Tree.get]
  | .cons a sv rest =>
    intro dst k hu
    simp only [Tree.keys, List.nodup_cons] at hu
    obtain ⟨hnone, hrest⟩ := hu
    rw [deepMergeMap_cons, deepMergeMap_get rest _ k hrest, Tree.get_set]
    by_cases h : a = k
    · subst h
      simp [Tree.get, (Tree.get_eq_none_iff rest a).mpr hnone]
    · simp [Tree.get, h]

theorem Tree.uniqueKeys_nodup (t : Tree) (h : t.uniqueKeys = true) : t.keys.Nodup := by
  match t with
  | .nil => simp [Tree.keys]
  | .cons a w rest =>
    simp only [Tree.uniqueKeys, Bool.and_eq_true, decide_eq_true_eq] at h
    simp only [Tree.keys, List.nodup_cons]
    exact ⟨h.1.1, Tree.uniqueKeys_nodup rest h.2⟩

theorem Tree.uniqueKeys_get (t : Tree) (k : String) (m : Tree)
    (h : t.uniqueKeys = true) (hg : t.get k = some (.tree m)) : m.uniqueKeys = true := by
  match t with
  | .nil => simp [Tree.get] at hg
  | .cons a w rest =>
    simp only [Tree.uniqueKeys, Bool.and_eq_true, decide_eq_true_eq] at h
    by_cases e : a = k
    · simp only [Tree.get, e, if_true, Option.some.injEq] at hg
      subst hg
      simpa [Value.uniqueKeys] using h.1.2
    · simp only [Tree.get, e, if_false] at hg
      exact Tree.uniqueKeys_get rest k m h.2 hg

theorem Value.atPath_scalar_cons (s : Scalar) (k : String) (ks : List String) :
    (Value.scalar s).atPath (k :: ks) = none := by
  simp [Value.atPath]

theorem Tree.atPath_cons (t : Tree) (k : String) (ks : List String) :
    t.atPath (k :: ks) = (t.get k).bind (fun w => w.atPath ks) := by
  unfold Tree.atPath
  rw [Value.atPath]
  cases t.get k <;> rfl

theorem deepMergeMap_atPath_scalar : ∀ (p : List String) (B E : Tree) (v : Scalar),
    E.uniqueKeys = true → E.atPath p = some (.scalar v) →
    (deepMergeMap B E).atPath p = some (.scalar v) := by
  intro p
  induction p with
  | nil => intro B E v _ h; simp [Tree.atPath, Value.atPath] at h
  | cons k ks ih =>
    intro B E v hu h
    rw [Tree.atPath_cons] at h ⊢
    rw [deepMergeMap_get E B k (Tree.uniqueKeys_nodup E hu)]
    cases hg : E.get k with
    | none => simp [hg] at h
    | some ev =>
      simp only [hg, Option.bind_some] at h ⊢
      cases ev with
      | scalar s =>
        have : mergeEntry (B.get k) (.scalar s) = .scalar s := by
          unfold mergeEntry; split <;> simp_all
        rw [this]; exact h
      | tree em =>
        cases hb : B.get k with
        | none => simpa [mergeEntry] using h
        | some bv =>
          cases bv with
          | scalar s => simpa [mergeEntry] using h
          | tree bm =>
            simp only [mergeEntry]
            exact ih bm em v (Tree.uniqueKeys_get E k em hu hg) h

theorem deepMerge_single (B E : Tree) : deepMerge B [E] = deepMergeMap B E := rfl

theorem Value.atPath_append (q r : List String) : ∀ (v : Value),
    v.atPath (q ++ r) = (v.atPath q).bind (fun w => w.atPath r) := by
  induction q with
  | nil => intro v; simp [Value.atPath]
  | cons k ks ih =>
    intro v
    cases v with
    | scalar s => simp [Value.atPath]
    | tree m =>
      simp only [List.cons_append, Value.atPath]
      cases m.get k with
      | none => simp
      | some w => simpa using ih w

/-- C1: wherever the environment tree holds a scalar at a key path, the merged
tree holds that scalar at the same path, whatever the base tree holds there. -/
theorem deepMerge_env_precedence (B E : Tree) (p : List String) (v : Scalar)
    (hE : E.uniqueKeys = true) (h : E.atPath p = some (.scalar v)) :
    (deepMerge B [E]).atPath p = some (.scalar v) := by
  rw [deepMerge_single]
  exact deepMergeMap_atPath_scalar p B E v hE h


theorem mergeEntry_none (sv : Value) : mergeEntry none sv = sv := by
  cases sv <;> rfl

theorem deepMergeMap_mem_keys (B E : Tree) (hE : E.keys.Nodup) (k : String) :
    k ∈ (deepMergeMap B E).keys ↔ k ∈ B.keys ∨ k ∈ E.keys := by
  simp only [Tree.mem_keys_iff, deepMergeMap_get E B k hE]
  cases hg : E.get k with
  | none => simp
  | some ev => simp

/-- C2: the keys of the merged tree are the keys of the base tree together with
those of the environment tree; a key the environment tree lacks keeps the base
value, and a key only the environment tree has gets the environment value. -/
theorem deepMerge_key_union (B E : Tree) (hE : E.keys.Nodup) :
    (∀ k, k ∈ (deepMerge B [E]).keys ↔ k ∈ B.keys ∨ k ∈ E.keys) ∧
    (∀ k, k ∉ E.keys → (deepMerge B [E]).get k = B.get k) ∧
    (∀ k v, k ∉ B.keys → E.get k = some v → (deepMerge B [E]).get k = some v) := by
  rw [deepMerge_single]
  refine ⟨deepMergeMap_mem_keys B E hE, ?_, ?_⟩
  · intro k hk
    rw [deepMergeMap_get E B k hE, (Tree.get_eq_none_iff E k).mpr hk]
  · intro k v hk hv
    rw [deepMergeMap_get E B k hE, hv, (Tree.get_eq_none_iff B k).mpr hk]
    simp [mergeEntry_none]

/-- C3: at a key both trees hold, the merged tree holds the deep merge of the two
values when both are nested trees, and the environment value otherwise (scalar
over scalar, scalar over tree, tree over scalar). -/
theorem deepMerge_right_biased (B E : Tree) (k : String) (hE : E.keys.Nodup) :
    (∀ bm em, B.get k = some (.tree bm) → E.get k = some (.tree em) →
      (deepMerge B [E]).get k = some (.tree (deepMerge bm [em]))) ∧
    (∀ bv ev, B.get k = some bv → E.get k = some ev → (bv.isTree && ev.isTree) = false →
      (deepMerge B [E]).get k = some ev) := by
  rw [deepMerge_single]
  constructor
  · intro bm em hb he
    rw [deepMergeMap_get E B k hE, he, hb]
    rfl
  · intro bv ev hb he hnot
    rw [deepMergeMap_get E B k hE, he, hb]
    cases bv <;> cases ev <;> simp_all [mergeEntry, Value.isTree]

theorem deepMergeMap_atPath_base : ∀ (p : List String) (B E : Tree) (v : Value),
    E.uniqueKeys = true → B.atPath p = some v → E.atPath p = none →
    (∀ q, q <+: p → q ≠ p → E.atPath q = none ∨ ∃ m, E.atPath q = some (.tree m)) →
    (deepMergeMap B E).atPath p = some v := by
  intro p
  induction p with
  | nil => intro B E v _ _ h; simp [Tree.atPath, Value.atPath] at h
  | cons k ks ih =>
    intro B E v hu hb he hq
    rw [Tree.atPath_cons] at hb he ⊢
    rw [deepMergeMap_get E B k (Tree.uniqueKeys_nodup E hu)]
    cases hg : E.get k with
    | none => simpa using hb
    | some ev =>
      simp only [hg, Option.bind_some] at he ⊢
      cases ks with
      | nil => simp [Value.atPath] at he
      | cons k2 ks2 =>
        have h1 := hq [k] (by simp) (by simp)
        rw [Tree.atPath_cons, hg] at h1
        simp only [Option.bind_some, Value.atPath] at h1
        obtain ⟨em, hem⟩ : ∃ m, ev = .tree m := by
          rcases h1 with h1 | ⟨m, hm⟩
          · cases h1
          · exact ⟨m, by simpa using hm⟩
        subst hem
        cases hbk : B.get k with
        | none => simp [hbk] at hb
        | some bv =>
          simp only [hbk, Option.bind_some] at hb
          cases bv with
          | scalar s => simp [Value.atPath] at hb
          | tree bm =>
            simp only [mergeEntry]
            refine ih bm em v (Tree.uniqueKeys_get E k em hu hg) hb he ?_
            intro q hqp hne
            have h2 := hq (k :: q) (by simpa using hqp) (by simpa using hne)
            rw [Tree.atPath_cons, hg] at h2
            simpa using h2

theorem Value.atPath_below_scalar (w : Value) (q r : List String) (s : Scalar)
    (hq : w.atPath q = some (.scalar s)) (hr : r ≠ []) : w.atPath (q ++ r) = none := by
  rw [Value.atPath_append, hq]
  cases r with
  | nil => exact absurd rfl hr
  | cons a as => simp [Value.atPath]

/-- C10: a value the base tree holds at a key path survives the merge when the
environment tree has nothing at the path and nothing but nested trees above it;
and when the environment tree holds a scalar above the path, the merged tree has
nothing at the path. -/
theorem deepMerge_base_frame (B E : Tree) (p : List String) (hE : E.uniqueKeys = true) :
    (∀ v, B.atPath p = some v → E.atPath p = none →
      (∀ q, q <+: p → q ≠ p → E.atPath q = none ∨ ∃ m, E.atPath q = some (.tree m)) →
      (deepMerge B [E]).atPath p = some v) ∧
    (∀ q s, q <+: p → q ≠ p → E.atPath q = some (.scalar s) →
      (deepMerge B [E]).atPath p = none) := by
  rw [deepMerge_single]
  refine ⟨fun v hb he hq => deepMergeMap_atPath_base p B E v hE hb he hq, ?_⟩
  intro q s hqp hne hs
  obtain ⟨r, rfl⟩ := hqp
  have hr : r ≠ [] := by
    intro h; apply hne; simp [h]
  exact Value.atPath_below_scalar _ q r s (deepMergeMap_atPath_scalar q B E s hE hs) hr

theorem deepMerge_env_precedence_witness :
    exampleEnv.uniqueKeys = true ∧
    exampleEnv.atPath ["http", "read_timeout"] = some (.scalar (.dur (20 * second))) ∧
    (deepMerge exampleBase [exampleEnv]).atPath ["http", "read_timeout"]
      = some (.scalar (.dur (20 * second))) :=
  ⟨by decide, by decide,
    deepMerge_env_precedence exampleBase exampleEnv ["http", "read_timeout"]
      (.dur (20 * second)) (by decide) (by decide)⟩

theorem deepMerge_key_union_witness :
    exampleEnv.keys.Nodup ∧
    ("auth" ∈ (deepMerge exampleBase [exampleEnv]).keys ↔
      "auth" ∈ exampleBase.keys ∨ "auth" ∈ exampleEnv.keys) ∧
    (deepMerge exampleBase [exampleEnv]).get "auth" = exampleBase.get "auth" ∧
    (deepMerge exampleBase [exampleEnv]).get "jwt" = exampleEnv.get "jwt" :=
  have h := deepMerge_key_union exampleBase exampleEnv (by decide)
  ⟨by decide, h.1 "auth", h.2.1 "auth" (by decide),
    h.2.2 "jwt" (.tree (.cons "access_token" (.tree
      (.cons "private_key" (.scalar (.str "test-2")) .nil)) .nil)) (by decide) (by decide)⟩

theorem deepMerge_right_biased_witness :
    exampleEnv.keys.Nodup ∧
    (deepMerge exampleBase [exampleEnv]).get "http" =
      some (.tree (deepMerge
        (.cons "port" (.scalar (.str "4051"))
          (.cons "read_timeout" (.scalar (.dur (10 * second))) .nil))
        [.cons "read_timeout" (.scalar (.dur (20 * second))) .nil])) ∧
    (deepMerge exampleBase [exampleEnvFlat]).get "http" = some (.scalar (.bool false)) :=
  ⟨by decide,
    (deepMerge_right_biased exampleBase exampleEnv "http" (by decide)).1 _ _ (by decide) (by decide),
    (deepMerge_right_biased exampleBase exampleEnvFlat "http" (by decide)).2 _ _
      rfl rfl rfl⟩

theorem proper_initial_segments_two (a b : String) (q : List String)
    (h : q <+: [a, b]) (hne : q ≠ [a, b]) : q = [] ∨ q = [a] := by
  have hm : q ∈ [a, b].inits := (List.mem_inits q [a, b]).mpr h
  simp [List.inits] at hm
  rcases hm with h1 | h1 | h1
  · exact Or.inl h1
  · exact Or.inr h1
  · exact absurd h1 hne

theorem deepMerge_base_frame_witness :
    exampleEnv.uniqueKeys = true ∧ exampleEnvFlat.uniqueKeys = true ∧
    exampleBase.atPath ["http", "port"] = some (.scalar (.str "4051")) ∧
    (deepMerge exampleBase [exampleEnv]).atPath ["http", "port"] = some (.scalar (.str "4051")) ∧
    (deepMerge exampleBase [exampleEnvFlat]).atPath ["http", "port"] = none :=
  ⟨by decide, by decide, by decide,
    (deepMerge_base_frame exampleBase exampleEnv ["http", "port"] (by decide)).1 _
      (by decide) (by decide)
      (fun q hq hne => by
        rcases proper_initial_segments_two "http" "port" q hq hne with h | h
        · subst h; exact Or.inr ⟨exampleEnv, rfl⟩
        · subst h; exact Or.inr ⟨_, rfl⟩),
    (deepMerge_base_frame exampleBase exampleEnvFlat ["http", "port"] (by decide)).2
      ["http"] (.bool false) (by decide) (by decide) (by decide)⟩

/-! ## Properties of the loader -/

theorem parseConfig_main_error (fs : FS) (folder env : String) (v : Viper) (err : Err)
    (h : fs.readConfig (v.AddConfigPath folder).configPaths "main" = .error err) :
    (parseConfig fs folder env v).2 = some err ∧
    (parseConfig fs folder env v).1.defaults = v.defaults := by
  unfold parseConfig
  simp only [Viper.ReadInConfig, Viper.SetConfigName, h]
  exact ⟨trivial, by unfold Viper.AddConfigPath; split <;> rfl⟩

theorem parseConfig_env_error (fs : FS) (folder env : String) (v : Viper) (t : Tree) (err : Err)
    (hm : fs.readConfig (v.AddConfigPath folder).configPaths "main" = .ok t)
    (h : fs.readConfig (v.AddConfigPath folder).configPaths env = .error err) :
    (parseConfig fs folder env v).2 = some err ∧
    (parseConfig fs folder env v).1.defaults = v.defaults := by
  unfold parseConfig
  simp only [Viper.ReadInConfig, Viper.SetConfigName, hm, h]
  exact ⟨trivial, by unfold Viper.AddConfigPath; split <;> rfl⟩

theorem Init_of_parse_error (fs : FS) (dec : Decoder) (configsDir env : String) (w : World)
    (err : Err) (h : (parseConfig fs configsDir env w.viper).2 = some err) :
    Init fs dec configsDir env w =
      (.returned none (some err), { w with viper := (parseConfig fs configsDir env w.viper).1 }) := by
  unfold Init
  cases hp : parseConfig fs configsDir env w.viper with
  | mk v oe =>
    rw [hp] at h
    simp only at h
    subst h
    rfl

/-- C7: when reading the `main` file fails, or reading the environment file fails,
`Init` returns that error with a nil `Config`; the process environment is left as
it was (no overlay) and no default has been seeded (the step before decoding was
not reached). -/
theorem Init_load_failure (fs : FS) (dec : Decoder) (configsDir env : String) (w : World)
    (err : Err)
    (h : fs.readConfig (w.viper.AddConfigPath configsDir).configPaths "main" = .error err ∨
      ((∃ t, fs.readConfig (w.viper.AddConfigPath configsDir).configPaths "main" = .ok t) ∧
        fs.readConfig (w.viper.AddConfigPath configsDir).configPaths env = .error err)) :
    (Init fs dec configsDir env w).1 = .returned none (some err) ∧
    (Init fs dec configsDir env w).2.environ = w.environ ∧
    (Init fs dec configsDir env w).2.viper.defaults = w.viper.defaults := by
  have hp : (parseConfig fs configsDir env w.viper).2 = some err ∧
      (parseConfig fs configsDir env w.viper).1.defaults = w.viper.defaults := by
    rcases h with h | ⟨⟨t, ht⟩, h⟩
    · exact parseConfig_main_error fs configsDir env w.viper err h
    · exact parseConfig_env_error fs configsDir env w.viper t err ht h
  rw [Init_of_parse_error fs dec configsDir env w err hp.1]
  exact ⟨rfl, rfl, hp.2⟩

theorem Init_load_failure_witness :
    (emptyFS.readConfig (exampleWorld.viper.AddConfigPath "./fixture").configPaths "main"
        = .error "Config File Not Found") ∧
    (Init emptyFS strictDecoder "./fixture" "test" exampleWorld).1
        = .returned none (some "Config File Not Found") ∧
    (Init exampleFS strictDecoder "./fixture" "staging" exampleWorld).1
        = .returned none (some "Config File Not Found") :=
  ⟨rfl,
    (Init_load_failure emptyFS strictDecoder "./fixture" "test" exampleWorld
      "Config File Not Found" (Or.inl rfl)).1,
    (Init_load_failure exampleFS strictDecoder "./fixture" "staging" exampleWorld
      "Config File Not Found" (Or.inr ⟨⟨exampleBase, rfl⟩, rfl⟩)).1⟩

theorem lookup_append_of_some (k : String) (val : String) :
    ∀ (l l2 : List (String × String)), l.lookup k = some val → (l ++ l2).lookup k = some val := by
  intro l
  induction l with
  | nil => intro l2 h; simp at h
  | cons a as ih =>
    intro l2 h
    obtain ⟨a1, a2⟩ := a
    by_cases e : k = a1
    · subst e
      simpa [List.lookup] using h
    · have hb : (k == a1) = false := by simpa using e
      simp only [List.cons_append, List.lookup, hb] at h ⊢
      exact ih l2 h

theorem godotenvLoad_keeps (k val : String) : ∀ (vars : List (String × String)) (environ : Environ),
    environ.lookup k = some val → (godotenvLoad environ vars).lookup k = some val := by
  intro vars
  induction vars with
  | nil => intro environ h; simpa [godotenvLoad] using h
  | cons a rest ih =>
    intro environ h
    obtain ⟨a1, a2⟩ := a
    unfold godotenvLoad
    split
    · exact ih environ h
    · exact ih _ (lookup_append_of_some k val environ _ h)

/-- C6: a `Config` returned by a successful `Init` has `Auth.PasswordSalt`,
`Auth.JWT.SecretKey`, `HTTP.Host` and `Environment` equal to the values of
`PASSWORD_SALT`, `JWT_SECRET_KEY`, `HTTP_HOST` and `APP_ENV` in the process
environment the call leaves (the one it received, completed by the dotenv file),
the empty string for a variable that is not set, whatever the configuration files
hold and whatever `env` argument was passed. -/
theorem Init_env_overlay (fs : FS) (dec : Decoder) (configsDir env : String) (w w2 : World)
    (cfg : Config) (h : Init fs dec configsDir env w = (.returned (some cfg) none, w2)) :
    cfg.Auth.PasswordSalt = Getenv w2.environ "PASSWORD_SALT" ∧
    cfg.Auth.JWT.SecretKey = Getenv w2.environ "JWT_SECRET_KEY" ∧
    cfg.HTTP.Host = Getenv w2.environ "HTTP_HOST" ∧
    cfg.Environment = Getenv w2.environ "APP_ENV" ∧
    (∃ vars, fs.readDotenv (configsDir ++ "/.env") = .ok vars ∧
      w2.environ = godotenvLoad w.environ vars) ∧
    (∀ k val, w.environ.lookup k = some val → Getenv w2.environ k = val) ∧
    (∀ k, w2.environ.lookup k = none → Getenv w2.environ k = "") := by
  unfold Init at h
  cases hp : parseConfig fs configsDir env w.viper with
  | mk v oe =>
    rw [hp] at h
    cases oe with
    | some e => simp at h
    | none =>
      simp only at h
      cases hu : unmarshal (populateDefault v) dec Config.zero with
      | mk c0 oe2 =>
        rw [hu] at h
        cases oe2 with
        | some e => simp at h
        | none =>
          simp only at h
          unfold fetchFromEnv at h
          cases hd : fs.readDotenv (configsDir ++ "/.env") with
          | error e => rw [hd] at h; simp at h
          | ok vars =>
            rw [hd] at h
            simp only [Prod.mk.injEq, Outcome.returned.injEq, Option.some.injEq, and_true] at h
            obtain ⟨hc, hw⟩ := h
            subst hc
            subst hw
            refine ⟨rfl, rfl, rfl, rfl, ⟨vars, rfl, rfl⟩, ?_, ?_⟩
            · intro k val hk
              simp only [Getenv, godotenvLoad_keeps k val vars w.environ hk]
            · intro k hk
              simp only [Getenv, hk]

theorem Init_env_overlay_witness :
    Init exampleFS strictDecoder "./fixture" "test" exampleWorld =
      (.returned (some exampleResolved) none,
        (Init exampleFS strictDecoder "./fixture" "test" exampleWorld).2) ∧
    exampleResolved.HTTP.Host = "local.test" ∧
    exampleResolved.HTTP.Host =
      Getenv (Init exampleFS strictDecoder "./fixture" "test" exampleWorld).2.environ "HTTP_HOST" :=
  have h : Init exampleFS strictDecoder "./fixture" "test" exampleWorld =
      (.returned (some exampleResolved) none,
        (Init exampleFS strictDecoder "./fixture" "test" exampleWorld).2) :=
    Prod.ext (by decide) rfl
  ⟨h, rfl, (Init_env_overlay exampleFS strictDecoder "./fixture" "test" exampleWorld _
    exampleResolved h).2.2.1⟩

theorem runFields_cons (v : Viper) (dec : Decoder) (f : Field) (rest : List Field) (c : Config) :
    runFields v dec (f :: rest) c = andThen (f.step v dec c) c (runFields v dec rest) := by
  simp only [runFields, andThen]
  cases f.step v dec c <;> rfl

theorem step_httpPort (v : Viper) (dec : Decoder) (c : Config)
    (K : Config → Config × Option Err) :
    andThen (Field.step v dec .httpPort c) c K =
      andThen (v.UnmarshalKey ["http", "port"] dec.string c.HTTP.Port) c
        (fun x => K { c with HTTP := { c.HTTP with Port := x } }) := by
  simp only [andThen, Field.step, Field.key, Field.decode, Viper.UnmarshalKey]
  cases v.Get ["http", "port"] with
  | none => rfl
  | some x =>
    simp only
    cases dec.string x <;> rfl

theorem step_httpMaxHeaderMegabyte (v : Viper) (dec : Decoder) (c : Config)
    (K : Config → Config × Option Err) :
    andThen (Field.step v dec .httpMaxHeaderMegabyte c) c K =
      andThen (v.UnmarshalKey ["http", "max_header_megabyte"] dec.int c.HTTP.MaxHeaderMegabyte) c
        (fun x => K { c with HTTP := { c.HTTP with MaxHeaderMegabyte := x } }) := by
  simp only [andThen, Field.step, Field.key, Field.decode, Viper.UnmarshalKey]
  cases v.Get ["http", "max_header_megabyte"] with
  | none => rfl
  | some x =>
    simp only
    cases dec.int x <;> rfl

theorem step_httpReadTimeout (v : Viper) (dec : Decoder) (c : Config)
    (K : Config → Config × Option Err) :
    andThen (Field.step v dec .httpReadTimeout c) c K =
      andThen (v.UnmarshalKey ["http", "read_timeout"] dec.duration c.HTTP.ReadTimeout) c
        (fun x => K { c with HTTP := { c.HTTP with ReadTimeout := x } }) := by
  simp only [andThen, Field.step, Field.key, Field.decode, Viper.UnmarshalKey]
  cases v.Get ["http", "read_timeout"] with
  | none => rfl
  | some x =>
    simp only
    cases dec.duration x <;> rfl

theorem step_httpWriteTimeOut (v : Viper) (dec : Decoder) (c : Config)
    (K : Config → Config × Option Err) :
    andThen (Field.step v dec .httpWriteTimeOut c) c K =
      andThen (v.UnmarshalKey ["http", "write_timeout"] dec.duration c.HTTP.WriteTimeOut) c
        (fun x => K { c with HTTP := { c.HTTP with WriteTimeOut := x } }) := by
  simp only [andThen, Field.step, Field.key, Field.decode, Viper.UnmarshalKey]
  cases v.Get ["http", "write_timeout"] with
  | none => rfl
  | some x =>
    simp only
    cases dec.duration x <;> rfl

theorem step_authVerificationCodeLength (v : Viper) (dec : Decoder) (c : Config)
    (K : Config → Config × Option Err) :
    andThen (Field.step v dec .authVerificationCodeLength c) c K =
      andThen (v.UnmarshalKey ["auth", "verification_code_length"] dec.int c.Auth.VerificationCodeLength) c
        (fun x => K { c with Auth := { c.Auth with VerificationCodeLength := x } }) := by
  simp only [andThen, Field.step, Field.key, Field.decode, Viper.UnmarshalKey]
  cases v.Get ["auth", "verification_code_length"] with
  | none => rfl
  | some x =>
    simp only
    cases dec.int x <;> rfl

theorem step_accessPrivateKey (v : Viper) (dec : Decoder) (c : Config)
    (K : Config → Config × Option Err) :
    andThen (Field.step v dec .accessPrivateKey c) c K =
      andThen (v.UnmarshalKey ["jwt", "access_token", "private_key"] dec.string c.Auth.JWT.AccessToken.PrivateKey) c
        (fun x => K { c with Auth := { c.Auth with JWT := { c.Auth.JWT with
          AccessToken := { c.Auth.JWT.AccessToken with PrivateKey := x } } } }) := by
  simp only [andThen, Field.step, Field.key, Field.decode, Viper.UnmarshalKey]
  cases v.Get ["jwt", "access_token", "private_key"] with
  | none => rfl
  | some x =>
    simp only
    cases dec.string x <;> rfl

theorem step_accessPublicKey (v : Viper) (dec : Decoder) (c : Config)
    (K : Config → Config × Option Err) :
    andThen (Field.step v dec .accessPublicKey c) c K =
      andThen (v.UnmarshalKey ["jwt", "access_token", "public_key"] dec.string c.Auth.JWT.AccessToken.PublicKey) c
        (fun x => K { c with Auth := { c.Auth with JWT := { c.Auth.JWT with
          AccessToken := { c.Auth.JWT.AccessToken with PublicKey := x } } } }) := by
  simp only [andThen, Field.step, Field.key, Field.decode, Viper.UnmarshalKey]
  cases v.Get ["jwt", "access_token", "public_key"] with
  | none => rfl
  | some x =>
    simp only
    cases dec.string x <;> rfl

theorem step_accessMaxAge (v : Viper) (dec : Decoder) (c : Config)
    (K : Config → Config × Option Err) :
    andThen (Field.step v dec .accessMaxAge c) c K =
      andThen (v.UnmarshalKey ["jwt", "access_token", "max_age"] dec.duration c.Auth.JWT.AccessToken.MaxAge) c
        (fun x => K { c with Auth := { c.Auth with JWT := { c.Auth.JWT with
          AccessToken := { c.Auth.JWT.AccessToken with MaxAge := x } } } }) := by
  simp only [andThen, Field.step, Field.key, Field.decode, Viper.UnmarshalKey]
  cases v.Get ["jwt", "access_token", "max_age"] with
  | none => rfl
  | some x =>
    simp only
    cases dec.duration x <;> rfl

theorem step_refreshPrivateKey (v : Viper) (dec : Decoder) (c : Config)
    (K : Config → Config × Option Err) :
    andThen (Field.step v dec .refreshPrivateKey c) c K =
      andThen (v.UnmarshalKey ["jwt", "refresh_token", "private_key"] dec.string c.Auth.JWT.RefreshToken.PrivateKey) c
        (fun x => K { c with Auth := { c.Auth with JWT := { c.Auth.JWT with
          RefreshToken := { c.Auth.JWT.RefreshToken with PrivateKey := x } } } }) := by
  simp only [andThen, Field.step, Field.key, Field.decode, Viper.UnmarshalKey]
  cases v.Get ["jwt", "refresh_token", "private_key"] with
  | none => rfl
  | some x =>
    simp only
    cases dec.string x <;> rfl

theorem step_refreshPublicKey (v : Viper) (dec : Decoder) (c : Config)
    (K : Config → Config × Option Err) :
    andThen (Field.step v dec .refreshPublicKey c) c K =
      andThen (v.UnmarshalKey ["jwt", "refresh_token", "public_key"] dec.string c.Auth.JWT.RefreshToken.PublicKey) c
        (fun x => K { c with Auth := { c.Auth with JWT := { c.Auth.JWT with
          RefreshToken := { c.Auth.JWT.RefreshToken with PublicKey := x } } } }) := by
  simp only [andThen, Field.step, Field.key, Field.decode, Viper.UnmarshalKey]
  cases v.Get ["jwt", "refresh_token", "public_key"] with
  | none => rfl
  | some x =>
    simp only
    cases dec.string x <;> rfl

theorem step_refreshMaxAge (v : Viper) (dec : Decoder) (c : Config)
    (K : Config → Config × Option Err) :
    andThen (Field.step v dec .refreshMaxAge c) c K =
      andThen (v.UnmarshalKey ["jwt", "refresh_token", "max_age"] dec.duration c.Auth.JWT.RefreshToken.MaxAge) c
        (fun x => K { c with Auth := { c.Auth with JWT := { c.Auth.JWT with
          RefreshToken := { c.Auth.JWT.RefreshToken with MaxAge := x } } } }) := by
  simp only [andThen, Field.step, Field.key, Field.decode, Viper.UnmarshalKey]
  cases v.Get ["jwt", "refresh_token", "max_age"] with
  | none => rfl
  | some x =>
    simp only
    cases dec.duration x <;> rfl

/-- The chain of statements of `unmarshal` is the table `mappingOrder` run in order. -/
theorem unmarshal_eq_runFields (v : Viper) (dec : Decoder) (c : Config) :
    unmarshal v dec c = runFields v dec mappingOrder c := by
  simp only [mappingOrder, runFields_cons, step_httpPort, step_httpMaxHeaderMegabyte, step_httpReadTimeout, step_httpWriteTimeOut, step_authVerificationCodeLength, step_accessPrivateKey, step_accessPublicKey, step_accessMaxAge, step_refreshPrivateKey, step_refreshPublicKey, step_refreshMaxAge]
  simp only [unmarshal, andThen]
  generalize v.UnmarshalKey ["http", "port"] dec.string c.HTTP.Port = r0
  cases r0 with
  | error e => rfl
  | ok x0 =>
  dsimp only
  generalize v.UnmarshalKey ["http", "max_header_megabyte"] dec.int c.HTTP.MaxHeaderMegabyte = r1
  cases r1 with
  | error e => rfl
  | ok x1 =>
  dsimp only
  generalize v.UnmarshalKey ["http", "read_timeout"] dec.duration c.HTTP.ReadTimeout = r2
  cases r2 with
  | error e => rfl
  | ok x2 =>
  dsimp only
  generalize v.UnmarshalKey ["http", "write_timeout"] dec.duration c.HTTP.WriteTimeOut = r3
  cases r3 with
  | error e => rfl
  | ok x3 =>
  dsimp only
  generalize v.UnmarshalKey ["auth", "verification_code_length"] dec.int c.Auth.VerificationCodeLength = r4
  cases r4 with
  | error e => rfl
  | ok x4 =>
  dsimp only
  generalize v.UnmarshalKey ["jwt", "access_token", "private_key"] dec.string c.Auth.JWT.AccessToken.PrivateKey = r5
  cases r5 with
  | error e => rfl
  | ok x5 =>
  dsimp only
  generalize v.UnmarshalKey ["jwt", "access_token", "public_key"] dec.string c.Auth.JWT.AccessToken.PublicKey = r6
  cases r6 with
  | error e => rfl
  | ok x6 =>
  dsimp only
  generalize v.UnmarshalKey ["jwt", "access_token", "max_age"] dec.duration c.Auth.JWT.AccessToken.MaxAge = r7
  cases r7 with
  | error e => rfl
  | ok x7 =>
  dsimp only
  generalize v.UnmarshalKey ["jwt", "refresh_token", "private_key"] dec.string c.Auth.JWT.RefreshToken.PrivateKey = r8
  cases r8 with
  | error e => rfl
  | ok x8 =>
  dsimp only
  generalize v.UnmarshalKey ["jwt", "refresh_token", "public_key"] dec.string c.Auth.JWT.RefreshToken.PublicKey = r9
  cases r9 with
  | error e => rfl
  | ok x9 =>
  dsimp only
  generalize v.UnmarshalKey ["jwt", "refresh_token", "max_age"] dec.duration c.Auth.JWT.RefreshToken.MaxAge = r10
  cases r10 with
  | error e => rfl
  | ok x10 =>
  dsimp only
  rfl

theorem Field.step_of_error (v : Viper) (dec : Decoder) (f : Field) (c : Config) (e : Err)
    (h : f.error v dec = some e) : f.step v dec c = .error e := by
  unfold Field.error at h
  unfold Field.step
  cases hg : v.Get f.key with
  | none => simp [hg] at h
  | some x =>
    simp only [hg] at h ⊢
    cases hd : f.decode dec x with
    | error e2 => simp only [hd, Option.some.injEq] at h; rw [h]
    | ok s => simp [hd] at h

theorem Field.read_write_other (f g : Field) (s : Scalar) (c : Config) (h : g ≠ f) :
    g.read (f.write s c) = g.read c := by
  cases f <;> cases g <;> first | exact absurd rfl h | (cases s <;> rfl)

theorem Field.step_of_no_error (v : Viper) (dec : Decoder) (f : Field) (c : Config)
    (h : f.error v dec = none) :
    ∃ c2, f.step v dec c = .ok c2 ∧ ∀ g, g ≠ f → g.read c2 = g.read c := by
  unfold Field.error at h
  unfold Field.step
  cases hg : v.Get f.key with
  | none => exact ⟨c, rfl, fun _ _ => rfl⟩
  | some x =>
    simp only [hg] at h ⊢
    cases hd : f.decode dec x with
    | error e2 => simp [hd] at h
    | ok s => exact ⟨f.write s c, rfl, fun g hgf => Field.read_write_other f g s c hgf⟩

theorem runFields_first_error (v : Viper) (dec : Decoder) (f : Field) (post : List Field)
    (e : Err) (hf : f.error v dec = some e) :
    ∀ (pre : List Field) (c : Config), (∀ g ∈ pre, g.error v dec = none) →
      ∃ c2, runFields v dec (pre ++ f :: post) c = (c2, some e) ∧
        ∀ g, g ∉ pre → g.read c2 = g.read c := by
  intro pre
  induction pre with
  | nil =>
    intro c _
    refine ⟨c, ?_, fun _ _ => rfl⟩
    simp only [List.nil_append, runFields, Field.step_of_error v dec f c e hf]
  | cons a rest ih =>
    intro c hpre
    obtain ⟨c1, hc1, hread1⟩ := Field.step_of_no_error v dec a c (hpre a (by simp))
    obtain ⟨c2, hc2, hread2⟩ := ih c1 (fun g hg => hpre g (by simp [hg]))
    refine ⟨c2, ?_, ?_⟩
    · simp only [List.cons_append, runFields, hc1]
      exact hc2
    · intro g hg
      simp only [List.mem_cons, not_or] at hg
      rw [hread2 g hg.2, hread1 g hg.1]

theorem mappingOrder_nodup : mappingOrder.Nodup := by decide

/-- C9: when the key of a field fails to decode and no key before it in the mapping
order does, `unmarshal` returns that key's error, the fields of that key and of
every later key are left as they were (they were not decoded), and `Init` returns
the error with a nil `Config`, leaving the process environment untouched. -/
theorem unmarshal_fail_fast (v : Viper) (dec : Decoder) (pre post : List Field) (f : Field)
    (e : Err) (hsplit : mappingOrder = pre ++ f :: post)
    (hpre : ∀ g ∈ pre, g.error v dec = none) (hf : f.error v dec = some e) :
    (∀ c, (unmarshal v dec c).2 = some e ∧
      ∀ g ∈ f :: post, g.read (unmarshal v dec c).1 = g.read c) ∧
    (∀ fs configsDir env w v0, parseConfig fs configsDir env w.viper = (v0, none) →
      populateDefault v0 = v →
      Init fs dec configsDir env w = (.returned none (some e), { w with viper := v })) := by
  have hu : ∀ c, (unmarshal v dec c).2 = some e ∧
      ∀ g ∈ f :: post, g.read (unmarshal v dec c).1 = g.read c := by
    intro c
    obtain ⟨c2, hc2, hread⟩ := runFields_first_error v dec f post e hf pre c hpre
    rw [unmarshal_eq_runFields, hsplit, hc2]
    refine ⟨rfl, fun g hg => hread g ?_⟩
    have hn := mappingOrder_nodup
    rw [hsplit] at hn
    intro hgp
    exact (List.disjoint_of_nodup_append hn) hgp hg
  refine ⟨hu, ?_⟩
  intro fs configsDir env w v0 hp hv
  unfold Init
  rw [hp]
  simp only [hv]
  have h2 := (hu Config.zero).1
  cases hr : unmarshal v dec Config.zero with
  | mk c1 oe =>
    rw [hr] at h2
    simp only at h2
    subst h2
    rfl

theorem unmarshal_fail_fast_witness :
    (Init exampleBadFS strictDecoder "./fixture" "test" exampleWorld).1
      = .returned none (some "expected type int") ∧
    (Init exampleBadFS strictDecoder "./fixture" "test" exampleWorld).2.environ
      = exampleWorld.environ :=
  have h := (unmarshal_fail_fast
    (populateDefault (parseConfig exampleBadFS "./fixture" "test" exampleWorld.viper).1)
    strictDecoder [.httpPort]
    [.httpReadTimeout, .httpWriteTimeOut, .authVerificationCodeLength, .accessPrivateKey,
      .accessPublicKey, .accessMaxAge, .refreshPrivateKey, .refreshPublicKey, .refreshMaxAge]
    .httpMaxHeaderMegabyte "expected type int" rfl
    (fun g hg => by
      have hg2 : g = .httpPort := by simpa using hg
      subst hg2
      decide)
    (by decide)).2 exampleBadFS "./fixture" "test" exampleWorld
    (parseConfig exampleBadFS "./fixture" "test" exampleWorld.viper).1 rfl rfl
  ⟨by rw [h], by rw [h]⟩

/-! ## The registry after `parseConfig` -/

theorem Tree.set_get_self (t : Tree) (k : String) (v : Value) (h : t.get k = some v) :
    t.set k v = t := by
  match t with
  | .nil => simp [Tree.get] at h
  | .cons a w rest =>
    by_cases e : a = k
    · simp only [Tree.get, e, if_true, Option.some.injEq] at h
      simp [Tree.set, e, h]
    · simp only [Tree.get, e, if_false] at h
      simp [Tree.set, e, Tree.set_get_self rest k v h]

theorem Tree.keys_set (t : Tree) (k : String) (v : Value) :
    (t.set k v).keys = if k ∈ t.keys then t.keys else t.keys ++ [k] := by
  match t with
  | .nil => simp [Tree.set, Tree.keys]
  | .cons a w rest =>
    have ih := Tree.keys_set rest k v
    by_cases e : a = k
    · simp [Tree.set, Tree.keys, e]
    · have e2 : ¬ k = a := fun h => e h.symm
      by_cases hm : k ∈ rest.keys
      · simp [Tree.set, Tree.keys, e, e2, ih, hm]
      · simp [Tree.set, Tree.keys, e, e2, ih, hm]

theorem Tree.keys_set_nodup (t : Tree) (k : String) (v : Value) (h : t.keys.Nodup) :
    (t.set k v).keys.Nodup := by
  rw [Tree.keys_set]
  split
  · exact h
  · rename_i hk
    rw [List.nodup_append]
    refine ⟨h, by simp, ?_⟩
    intro a ha hb
    simp only [List.mem_singleton] at hb
    exact hk (hb ▸ ha)

theorem deepMergeMap_keys_nodup (E : Tree) : ∀ (B : Tree), B.keys.Nodup →
    (deepMergeMap B E).keys.Nodup := by
  match E with
  | .nil => intro B h; simpa [deepMergeMap] using h
  | .cons a sv rest =>
    intro B h
    rw [deepMergeMap_cons]
    exact deepMergeMap_keys_nodup rest _ (Tree.keys_set_nodup B a _ h)

theorem mergeMaps_cons (sk : String) (sv : Value) (rest tgt : Tree) :
    mergeMaps (.cons sk sv rest) tgt =
      mergeMaps rest (tgt.set sk (mergeMapsEntry (tgt.get sk) sv)) := by
  rw [mergeMaps]
  cases hg : tgt.get sk with
  | none => simp [mergeMapsEntry]
  | some tv =>
    cases tv with
    | scalar s => simp [mergeMapsEntry]
    | tree tm =>
      cases sv with
      | scalar s => simp [mergeMapsEntry, Tree.set_get_self tgt sk _ hg]
      | tree sm => simp [mergeMapsEntry]

theorem mergeMaps_get (src : Tree) : ∀ (tgt : Tree) (k : String), src.keys.Nodup →
    (mergeMaps src tgt).get k =
      match src.get k with
      | none => tgt.get k
      | some sv => some (mergeMapsEntry (tgt.get k) sv) := by
  match src with
  | .nil => intro tgt k _; simp [mergeMaps, Tree.get]
  | .cons a sv rest =>
    intro tgt k hu
    simp only [Tree.keys, List.nodup_cons] at hu
    obtain ⟨hnone, hrest⟩ := hu
    rw [mergeMaps_cons, mergeMaps_get rest _ k hrest, Tree.get_set]
    by_cases h : a = k
    · subst h
      simp [Tree.get, (Tree.get_eq_none_iff rest a).mpr hnone]
    · simp [Tree.get, h]

theorem parseConfig_read (fs : FS) (folder env : String) (v : Viper) (B E : Tree)
    (hB : fs.readConfig (v.AddConfigPath folder).configPaths "main" = .ok B)
    (hE : fs.readConfig (v.AddConfigPath folder).configPaths env = .ok E) :
    (parseConfig fs folder env v).2 = none ∧
    (parseConfig fs folder env v).1.defaults = v.defaults ∧
    (parseConfig fs folder env v).1.config =
      mergeMaps (deepMerge (B.over v.defaults) [E.over v.defaults]) E := by
  have hd : (v.AddConfigPath folder).defaults = v.defaults := by
    unfold Viper.AddConfigPath; split <;> rfl
  unfold parseConfig
  simp only [Viper.ReadInConfig, Viper.SetConfigName, hB, hE, Viper.MergeConfigMap,
    Viper.AllSettings, hd]
  exact ⟨trivial, trivial, trivial⟩

theorem populateDefault_config (v : Viper) : (populateDefault v).config = v.config := rfl

theorem populateDefault_defaults (v : Viper) (h : v.defaults = .nil) :
    (populateDefault v).defaults = seededDefaults := by
  simp only [populateDefault, Viper.SetDefault, h, seededDefaults, Viper.New]

theorem Tree.atPath_of_shadows : ∀ (p : List String) (t : Tree),
    t.shadows p = true → t.atPath p = none := by
  intro p
  induction p with
  | nil => intro t h; simp [Tree.shadows] at h
  | cons k ks ih =>
    intro t h
    cases ks with
    | nil => simp [Tree.shadows] at h
    | cons k2 ks2 =>
      rw [Tree.atPath_cons]
      simp only [Tree.shadows] at h
      cases hg : t.get k with
      | none => rfl
      | some w =>
        cases w with
        | scalar s => simp [Value.atPath]
        | tree m =>
          simp only [hg] at h
          exact ih m h

theorem Tree.prune_keys_subset (t : Tree) (k : String) (h : k ∈ t.prune.keys) : k ∈ t.keys := by
  match t with
  | .nil => simp [Tree.prune, Tree.keys] at h
  | .cons a (.scalar s) rest =>
    simp only [Tree.prune, Tree.keys, List.mem_cons] at h ⊢
    rcases h with h | h
    · exact Or.inl h
    · exact Or.inr (Tree.prune_keys_subset rest k h)
  | .cons a (.tree m) rest =>
    simp only [Tree.prune] at h
    simp only [Tree.keys, List.mem_cons]
    split at h
    · exact Or.inr (Tree.prune_keys_subset rest k h)
    · simp only [Tree.keys, List.mem_cons] at h
      rcases h with h | h
      · exact Or.inl h
      · exact Or.inr (Tree.prune_keys_subset rest k h)

theorem Tree.prune_keys_nodup (t : Tree) (h : t.keys.Nodup) : t.prune.keys.Nodup := by
  match t with
  | .nil => simp [Tree.prune, Tree.keys]
  | .cons a (.scalar s) rest =>
    simp only [Tree.keys, List.nodup_cons] at h
    simp only [Tree.prune, Tree.keys, List.nodup_cons]
    exact ⟨fun hm => h.1 (Tree.prune_keys_subset rest a hm), Tree.prune_keys_nodup rest h.2⟩
  | .cons a (.tree m) rest =>
    simp only [Tree.keys, List.nodup_cons] at h
    simp only [Tree.prune]
    split
    · exact Tree.prune_keys_nodup rest h.2
    · simp only [Tree.keys, List.nodup_cons]
      exact ⟨fun hm => h.1 (Tree.prune_keys_subset rest a hm), Tree.prune_keys_nodup rest h.2⟩

theorem Tree.prune_get (t : Tree) (k : String) (h : t.keys.Nodup) :
    t.prune.get k = (t.get k).bind Value.pruned := by
  match t with
  | .nil => rfl
  | .cons a (.scalar s) rest =>
    simp only [Tree.keys, List.nodup_cons] at h
    have ih := Tree.prune_get rest k h.2
    by_cases e : a = k
    · simp [Tree.prune, Tree.get, e, Value.pruned]
    · simp [Tree.prune, Tree.get, e, ih]
  | .cons a (.tree m) rest =>
    simp only [Tree.keys, List.nodup_cons] at h
    have ih := Tree.prune_get rest k h.2
    have hnone : rest.get a = none := (Tree.get_eq_none_iff rest a).mpr h.1
    simp only [Tree.prune]
    cases hp : m.prune with
    | nil =>
      simp only
      by_cases e : a = k
      · subst e
        simp [Tree.get, ih, hnone, Value.pruned, hp]
      · simp [Tree.get, e, ih]
    | cons k2 v2 r2 =>
      simp only
      by_cases e : a = k
      · simp [Tree.get, e, Value.pruned, hp]
      · simp [Tree.get, e, ih]

theorem Tree.append_nil (t : Tree) : t.append .nil = t := by
  match t with
  | .nil => rfl
  | .cons a w rest => simp [Tree.append, Tree.append_nil rest]

theorem Tree.set_absent (t : Tree) (k : String) (v : Value) (h : t.get k = none) :
    t.set k v = t.append (.cons k v .nil) := by
  match t with
  | .nil => rfl
  | .cons a w rest =>
    by_cases e : a = k
    · simp [Tree.get, e] at h
    · simp only [Tree.get, e, if_false] at h
      simp [Tree.set, e, Tree.append, Tree.set_absent rest k v h]

theorem Tree.append_cons (t : Tree) (k : String) (v : Value) (u : Tree) :
    (t.append (.cons k v .nil)).append u = t.append (.cons k v u) := by
  match t with
  | .nil => rfl
  | .cons a w rest => simp [Tree.append, Tree.append_cons rest k v u]

theorem deepMergeMap_disjoint (t : Tree) : ∀ (d : Tree), t.keys.Nodup →
    (∀ k, k ∈ t.keys → d.get k = none) → deepMergeMap d t = d.append t := by
  match t with
  | .nil => intro d _ _; simp [deepMergeMap, Tree.append_nil]
  | .cons a v rest =>
    intro d hn hd
    simp only [Tree.keys, List.nodup_cons] at hn
    have ha : d.get a = none := hd a (by simp [Tree.keys])
    rw [deepMergeMap_cons, ha, mergeEntry_none, Tree.set_absent d a v ha,
      deepMergeMap_disjoint rest _ hn.2, Tree.append_cons]
    intro k hk
    rw [← Tree.set_absent d a v ha, Tree.get_set]
    have hne : ¬ a = k := fun e => hn.1 (e ▸ hk)
    simp only [hne, if_false]
    exact hd k (by simp [Tree.keys, hk])

theorem deepMergeMap_nil (t : Tree) (h : t.keys.Nodup) : deepMergeMap .nil t = t :=
  deepMergeMap_disjoint t .nil h (fun _ _ => rfl)

theorem Tree.shadows_cons (t : Tree) (k : String) (ks : List String) :
    t.shadows (k :: ks) = shadowsFrom (t.get k) ks := by
  cases ks with
  | nil =>
    cases hg : t.get k with
    | none => simp [Tree.shadows, shadowsFrom]
    | some w => cases w <;> simp [Tree.shadows, shadowsFrom, Value.shadowsBelow]
  | cons k2 ks2 =>
    cases hg : t.get k with
    | none => simp [Tree.shadows, shadowsFrom, hg]
    | some w => cases w <;> simp [Tree.shadows, shadowsFrom, Value.shadowsBelow, hg]

theorem Value.pruned_tree_nil (m : Tree) (h : m.prune = .nil) :
    Value.pruned (.tree m) = none := by
  simp [Value.pruned, h]

theorem Value.pruned_tree_cons (m : Tree) (a : String) (b : Value) (c : Tree)
    (h : m.prune = .cons a b c) : Value.pruned (.tree m) = some (.tree (.cons a b c)) := by
  simp [Value.pruned, h]

theorem lookupFrom_tree_cons (t : Tree) (k : String) (ks : List String) :
    lookupFrom (some (.tree t)) (k :: ks) = lookupFrom (t.get k) ks := by
  simp only [lookupFrom, Value.atPath]

theorem shadowsFrom_tree_cons (t : Tree) (k : String) (ks : List String) :
    shadowsFrom (some (.tree t)) (k :: ks) = shadowsFrom (t.get k) ks := by
  simp only [shadowsFrom, Value.shadowsBelow, Tree.shadows_cons]

theorem AgreeFrom.refl (o : Option Value) (ks : List String) : AgreeFrom o o ks :=
  ⟨fun _ h => h, fun h1 h2 => ⟨h1, h2⟩, fun h => h⟩

theorem AgreeFrom.tree_nil (m : Tree) (r : Option Value) : AgreeFrom (some (.tree m)) r [] := by
  refine ⟨?_, ?_, ?_⟩
  · intro s h; simp [lookupFrom, Value.atPath] at h
  · intro h; simp [lookupFrom, Value.atPath] at h
  · intro h; simp [shadowsFrom, Value.shadowsBelow, Tree.shadows] at h

theorem AgreeFrom.tree_cons (M R : Tree) (k : String) (ks : List String)
    (h : AgreeFrom (M.get k) (R.get k) ks) :
    AgreeFrom (some (.tree M)) (some (.tree R)) (k :: ks) := by
  unfold AgreeFrom
  rw [lookupFrom_tree_cons, lookupFrom_tree_cons, shadowsFrom_tree_cons, shadowsFrom_tree_cons]
  exact h

theorem AgreeFrom.tree_none (M : Tree) (k : String) (ks : List String)
    (h : AgreeFrom (M.get k) none ks) :
    AgreeFrom (some (.tree M)) none (k :: ks) := by
  unfold AgreeFrom at h ⊢
  rw [lookupFrom_tree_cons, shadowsFrom_tree_cons]
  exact h

theorem Tree.uniqueKeys_get_nodup (t : Tree) (k : String) (m : Tree)
    (h : t.uniqueKeys = true) (hg : t.get k = some (.tree m)) : m.keys.Nodup :=
  Tree.uniqueKeys_nodup m (Tree.uniqueKeys_get t k m h hg)

/-- Rebuilding a tree from its leaf keys does not change what is read at a key
path that holds a scalar, that is shadowed, or that holds and has nothing above. -/
theorem prune_agree_get : ∀ (ks : List String) (t : Tree) (k : String),
    t.uniqueKeys = true → AgreeFrom (t.get k) (t.prune.get k) ks := by
  intro ks
  induction ks with
  | nil =>
    intro t k hu
    rw [Tree.prune_get t k (Tree.uniqueKeys_nodup t hu)]
    cases hg : t.get k with
    | none => exact AgreeFrom.refl _ _
    | some w =>
      cases w with
      | scalar s => exact AgreeFrom.refl _ _
      | tree m => exact AgreeFrom.tree_nil m _
  | cons k2 ks2 ih =>
    intro t k hu
    rw [Tree.prune_get t k (Tree.uniqueKeys_nodup t hu)]
    cases hg : t.get k with
    | none => exact AgreeFrom.refl _ _
    | some w =>
      cases w with
      | scalar s => exact AgreeFrom.refl _ _
      | tree m =>
        have hm := Tree.uniqueKeys_get t k m hu hg
        have h2 := ih m k2 hm
        rw [Option.some_bind]
        cases hp : m.prune with
        | nil =>
          rw [hp] at h2
          rw [Value.pruned_tree_nil m hp]
          exact AgreeFrom.tree_none m k2 ks2 h2
        | cons a b c =>
          rw [hp] at h2
          rw [Value.pruned_tree_cons m a b c hp]
          exact AgreeFrom.tree_cons m _ k2 ks2 h2

theorem treeOf_pruned (o : Option Value) : treeOf (o.bind Value.pruned) = (treeOf o).prune := by
  cases o with
  | none => rfl
  | some w =>
    cases w with
    | scalar s => rfl
    | tree m =>
      rw [Option.some_bind]
      cases hp : m.prune with
      | nil => rw [Value.pruned_tree_nil m hp]; simp [treeOf, hp]
      | cons a b c => rw [Value.pruned_tree_cons m a b c hp]; simp [treeOf, hp]

theorem mergeEntry_treeOf (o : Option Value) (sm : Tree) (h : sm.keys.Nodup) :
    mergeEntry o (.tree sm) = .tree (deepMergeMap (treeOf o) sm) := by
  cases o with
  | none => simp [mergeEntry, treeOf, deepMergeMap_nil sm h]
  | some w =>
    cases w with
    | scalar s => simp [mergeEntry, treeOf, deepMergeMap_nil sm h]
    | tree dm => rfl

theorem mergeEntry_scalar (o : Option Value) (s : Scalar) :
    mergeEntry o (.scalar s) = .scalar s := by
  unfold mergeEntry; split <;> simp_all

theorem Tree.uniqueKeys_treeOf (t : Tree) (k : String) (h : t.uniqueKeys = true) :
    (treeOf (t.get k)).uniqueKeys = true := by
  cases hg : t.get k with
  | none => rfl
  | some w =>
    cases w with
    | scalar s => rfl
    | tree m => exact Tree.uniqueKeys_get t k m h hg

theorem mergeMaps_onto_tree (o : Option Value) (em : Tree) (h : em.prune.keys.Nodup) :
    (match (match Value.pruned (.tree em) with
        | none => o
        | some sv => some (mergeEntry o sv)) with
      | none => some (Value.tree em)
      | some sv => some (mergeMapsEntry (some (.tree em)) sv)) =
    some (.tree (mergeMaps (deepMergeMap (treeOf o) em.prune) em)) := by
  cases hp : em.prune with
  | nil =>
    rw [Value.pruned_tree_nil em hp]
    cases o with
    | none => simp [treeOf, deepMergeMap, mergeMaps]
    | some w =>
      cases w with
      | scalar s => simp [treeOf, deepMergeMap, mergeMaps, mergeMapsEntry]
      | tree bm => simp [treeOf, deepMergeMap, mergeMapsEntry]
  | cons a b c =>
    rw [Value.pruned_tree_cons em a b c hp]
    rw [hp] at h
    simp only [mergeEntry_treeOf o _ h, mergeMapsEntry]

/-- The registry's configuration after `parseConfig`, on a first resolution, is read
like the merge of the two files: the snapshots merged are the files rebuilt from
their leaf keys, and the result is merged into the environment file as read. -/
theorem parse_agree : ∀ (p : List String) (B E : Tree),
    B.uniqueKeys = true → E.uniqueKeys = true →
    Agree (deepMergeMap B E) (mergeMaps (deepMergeMap B.prune E.prune) E) p := by
  intro p
  induction p with
  | nil => intro B E _ _; exact AgreeFrom.tree_nil _ _
  | cons k ks ih =>
    intro B E hB hE
    have hBn := Tree.uniqueKeys_nodup B hB
    have hEn := Tree.uniqueKeys_nodup E hE
    have hM : (deepMergeMap B.prune E.prune).keys.Nodup :=
      deepMergeMap_keys_nodup E.prune B.prune (Tree.prune_keys_nodup B hBn)
    apply AgreeFrom.tree_cons
    rw [deepMergeMap_get E B k hEn, mergeMaps_get _ E k hM,
      deepMergeMap_get E.prune B.prune k (Tree.prune_keys_nodup E hEn),
      Tree.prune_get E k hEn, Tree.prune_get B k hBn]
    cases hg : E.get k with
    | none =>
      have hq := prune_agree_get ks B k hB
      rw [Tree.prune_get B k hBn] at hq
      simp only [Option.none_bind]
      cases hb : (B.get k).bind Value.pruned with
      | none => rw [hb] at hq; exact hq
      | some sv =>
        rw [hb] at hq
        simpa [mergeMapsEntry] using hq
    | some ev =>
      cases ev with
      | scalar s =>
        simp only [Option.some_bind, Value.pruned, mergeEntry_scalar, mergeMapsEntry]
        exact AgreeFrom.refl _ _
      | tree em =>
        have hem := Tree.uniqueKeys_get E k em hE hg
        have hemn := Tree.uniqueKeys_nodup em hem
        simp only [Option.some_bind]
        rw [mergeMaps_onto_tree _ em (Tree.prune_keys_nodup em hemn), treeOf_pruned,
          mergeEntry_treeOf (B.get k) em hemn]
        exact ih (treeOf (B.get k)) em (Tree.uniqueKeys_treeOf B k hB) hem

theorem Viper.Get_of_agree (v : Viper) (M : Tree) (p : List String)
    (h : Agree M v.config p) :
    (∀ s, M.atPath p = some (.scalar s) → v.Get p = some (.scalar s)) ∧
    (M.atPath p = none → M.shadows p = false → v.Get p = v.defaults.atPath p) ∧
    (M.shadows p = true → v.Get p = none) := by
  obtain ⟨h1, h2, h3⟩ := h
  have e1 : ∀ t : Tree, lookupFrom (some (.tree t)) p = t.atPath p := fun _ => rfl
  have e2 : ∀ t : Tree, shadowsFrom (some (.tree t)) p = t.shadows p := fun _ => rfl
  rw [e1, e1] at h1
  rw [e1, e1, e2, e2] at h2
  rw [e2, e2] at h3
  unfold Viper.Get
  refine ⟨?_, ?_, ?_⟩
  · intro s hs
    rw [h1 s hs]
  · intro hn hsh
    obtain ⟨ha, hb⟩ := h2 hn hsh
    rw [ha, hb]
    simp
  · intro hsh
    have hr := h3 hsh
    rw [Tree.atPath_of_shadows p v.config hr, hr]
    simp

theorem Tree.erase_nil (k : String) : Tree.erase .nil k = .nil := rfl

theorem Tree.over_nil : ∀ (t : Tree), t.over .nil = t.prune
  | .nil => rfl
  | .cons k (.scalar s) rest => by
    simp only [Tree.over, Tree.prune, Tree.erase_nil]
    rw [Tree.over_nil rest]
  | .cons k (.tree m) rest => by
    simp only [Tree.over, Tree.prune, Tree.erase_nil, Tree.get]
    rw [Tree.over_nil rest, Tree.over_nil m]

theorem Field.read_write_self (dec : Decoder) (f : Field) (x : Value) (s : Scalar) (c : Config)
    (h : f.decode dec x = .ok s) : f.read (f.write s c) = s := by
  cases f <;> simp only [Field.decode, Except.map] at h <;> split at h <;>
    first
    | (cases h; rfl)
    | cases h

theorem Field.step_ok (v : Viper) (dec : Decoder) (f : Field) (c c1 : Config)
    (h : f.step v dec c = .ok c1) :
    (v.Get f.key = none → f.read c1 = f.read c) ∧
    (∀ x, v.Get f.key = some x → f.decode dec x = .ok (f.read c1)) ∧
    (∀ g, g ≠ f → g.read c1 = g.read c) := by
  unfold Field.step at h
  cases hg : v.Get f.key with
  | none =>
    simp only [hg, Except.ok.injEq] at h
    subst h
    exact ⟨fun _ => rfl, fun x hx => by simp at hx, fun _ _ => rfl⟩
  | some x =>
    simp only [hg] at h
    cases hd : f.decode dec x with
    | error e => simp [hd] at h
    | ok s =>
      simp only [hd, Except.ok.injEq] at h
      subst h
      refine ⟨fun hn => by simp at hn, ?_, fun g hgf => Field.read_write_other f g s c hgf⟩
      intro y hy
      simp only [Option.some.injEq] at hy
      subst hy
      rw [Field.read_write_self dec f x s c hd, hd]

theorem runFields_ok (v : Viper) (dec : Decoder) : ∀ (fields : List Field) (c c2 : Config),
    runFields v dec fields c = (c2, none) → fields.Nodup →
    (∀ f ∈ fields, v.Get f.key = none → f.read c2 = f.read c) ∧
    (∀ f ∈ fields, ∀ x, v.Get f.key = some x → f.decode dec x = .ok (f.read c2)) ∧
    (∀ g, g ∉ fields → g.read c2 = g.read c) := by
  intro fields
  induction fields with
  | nil =>
    intro c c2 h _
    simp only [runFields, Prod.mk.injEq, and_true] at h
    subst h
    exact ⟨fun f hf => by simp at hf, fun f hf => by simp at hf, fun _ _ => rfl⟩
  | cons a rest ih =>
    intro c c2 h hn
    simp only [List.nodup_cons] at hn
    obtain ⟨ha, hrest⟩ := hn
    simp only [runFields] at h
    cases hs : a.step v dec c with
    | error e => simp [hs] at h
    | ok c1 =>
      simp only [hs] at h
      obtain ⟨h1, h2, h3⟩ := ih c1 c2 h hrest
      obtain ⟨s1, s2, s3⟩ := Field.step_ok v dec a c c1 hs
      refine ⟨?_, ?_, ?_⟩
      · intro f hf hg
        rcases List.mem_cons.mp hf with e | hm
        · subst e
          rw [h3 f ha, s1 hg]
        · have hne : f ≠ a := fun e => ha (e ▸ hm)
          rw [h1 f hm hg, s3 f hne]
      · intro f hf x hg
        rcases List.mem_cons.mp hf with e | hm
        · subst e
          rw [h3 f ha]
          exact s2 x hg
        · exact h2 f hm x hg
      · intro g hg
        simp only [List.mem_cons, not_or] at hg
        rw [h3 g hg.2, s3 g hg.1]

theorem mem_mappingOrder (f : Field) : f ∈ mappingOrder := by
  cases f <;> decide

theorem fetchFromEnv_read (fs : FS) (configsDir : String) (c c2 : Config) (environ e2 : Environ)
    (h : fetchFromEnv fs configsDir c environ = .ok (c2, e2)) (f : Field) :
    f.read c2 = f.read c := by
  unfold fetchFromEnv at h
  cases hd : fs.readDotenv (configsDir ++ "/.env") with
  | error e => simp [hd] at h
  | ok vars =>
    simp only [hd, Except.ok.injEq, Prod.mk.injEq] at h
    obtain ⟨hc, _⟩ := h
    subst hc
    cases f <;> rfl

/-- What a successful `Init` says about every mapped field: the registry after
`parseConfig` and `populateDefault` either has no value for the field's key and
the field keeps its zero value, or has a value that decodes to the field. -/
theorem Init_ok_fields (fs : FS) (dec : Decoder) (configsDir env : String) (w w2 : World)
    (cfg : Config) (h : Init fs dec configsDir env w = (.returned (some cfg) none, w2))
    (f : Field) :
    (parseConfig fs configsDir env w.viper).2 = none ∧
    ((populateDefault (parseConfig fs configsDir env w.viper).1).Get f.key = none →
      f.read cfg = f.read Config.zero) ∧
    (∀ x, (populateDefault (parseConfig fs configsDir env w.viper).1).Get f.key = some x →
      f.decode dec x = .ok (f.read cfg)) := by
  unfold Init at h
  cases hp : parseConfig fs configsDir env w.viper with
  | mk v oe =>
    rw [hp] at h
    cases oe with
    | some e => simp at h
    | none =>
      simp only at h
      cases hu : unmarshal (populateDefault v) dec Config.zero with
      | mk c0 oe2 =>
        rw [hu] at h
        cases oe2 with
        | some e => simp at h
        | none =>
          simp only at h
          cases hf : fetchFromEnv fs configsDir c0 w.environ with
          | error e => rw [hf] at h; simp at h
          | ok r =>
            obtain ⟨c3, e3⟩ := r
            rw [hf] at h
            simp only [Prod.mk.injEq, Outcome.returned.injEq, Option.some.injEq, and_true] at h
            obtain ⟨hc, _⟩ := h
            subst hc
            rw [unmarshal_eq_runFields] at hu
            obtain ⟨h1, h2, _⟩ := runFields_ok (populateDefault v) dec mappingOrder
              Config.zero c0 hu mappingOrder_nodup
            have hr := fetchFromEnv_read fs configsDir c0 c3 w.environ e3 hf f
            refine ⟨rfl, ?_, ?_⟩
            · intro hg
              rw [hr]
              exact h1 f (mem_mappingOrder f) hg
            · intro x hg
              rw [hr]
              exact h2 f (mem_mappingOrder f) x hg

/-- The first resolution of a process, field by field: with no default seeded
beforehand and both files read, a successful `Init` fills a mapped field from the
merge of the two trees when the merge holds a scalar at the field's key, keeps the
zero value when the key is shadowed by a scalar of the merge, and otherwise uses
whatever `populateDefault` stored under that very key. -/
theorem Init_first_resolution_field (fs : FS) (dec : Decoder) (configsDir env : String)
    (w w2 : World) (B E : Tree) (cfg : Config)
    (hd : w.viper.defaults = .nil)
    (hB : fs.readConfig (w.viper.AddConfigPath configsDir).configPaths "main" = .ok B)
    (hE : fs.readConfig (w.viper.AddConfigPath configsDir).configPaths env = .ok E)
    (hBu : B.uniqueKeys = true) (hEu : E.uniqueKeys = true)
    (h : Init fs dec configsDir env w = (.returned (some cfg) none, w2)) (f : Field) :
    ((deepMerge B [E]).atPath f.key = none → (deepMerge B [E]).shadows f.key = false →
      ∀ d, seededDefaults.atPath f.key = some (.scalar d) →
        f.decode dec (.scalar d) = .ok (f.read cfg)) ∧
    ((deepMerge B [E]).atPath f.key = none → (deepMerge B [E]).shadows f.key = false →
      seededDefaults.atPath f.key = none → f.read cfg = f.read Config.zero) ∧
    ((deepMerge B [E]).shadows f.key = true → f.read cfg = f.read Config.zero) ∧
    (∀ s, (deepMerge B [E]).atPath f.key = some (.scalar s) →
      f.decode dec (.scalar s) = .ok (f.read cfg)) := by
  obtain ⟨_, hnone, hsome⟩ := Init_ok_fields fs dec configsDir env w w2 cfg h f
  obtain ⟨_, hdef, hcfg⟩ := parseConfig_read fs configsDir env w.viper B E hB hE
  rw [hd] at hdef
  rw [hd, Tree.over_nil, Tree.over_nil] at hcfg
  have hagree : Agree (deepMerge B [E])
      (populateDefault (parseConfig fs configsDir env w.viper).1).config f.key := by
    rw [populateDefault_config, hcfg, deepMerge_single]
    exact parse_agree f.key B E hBu hEu
  obtain ⟨g3, g1, g2⟩ := Viper.Get_of_agree _ (deepMerge B [E]) f.key hagree
  rw [populateDefault_defaults _ hdef] at g1
  refine ⟨?_, ?_, ?_, ?_⟩
  · intro ha hs d hdv
    exact hsome _ (by rw [g1 ha hs, hdv])
  · intro ha hs hdn
    exact hnone (by rw [g1 ha hs, hdn])
  · intro hs
    exact hnone (g2 hs)
  · intro s hs
    exact hsome _ (g3 s hs)

theorem Tree.stored_uniqueKeys (t : Tree) (h : t.stored = true) : t.uniqueKeys = true := by
  simp only [Tree.stored, Bool.and_eq_true] at h
  exact h.1

/-- C4: neither example file sets `jwt.access_token.max_age` or
`jwt.refresh_token.max_age`; `Init` succeeds and both `MaxAge` fields are zero,
not 15 hours and 24 hours. -/
theorem Init_token_max_age_zero :
    exampleBase.atPath ["jwt", "access_token", "max_age"] = none ∧
    exampleEnv.atPath ["jwt", "access_token", "max_age"] = none ∧
    exampleBase.atPath ["jwt", "refresh_token", "max_age"] = none ∧
    exampleEnv.atPath ["jwt", "refresh_token", "max_age"] = none ∧
    ∃ cfg, (Init exampleFS strictDecoder "./fixture" "test" exampleWorld).1
        = .returned (some cfg) none ∧
      cfg.Auth.JWT.AccessToken.MaxAge = 0 ∧ cfg.Auth.JWT.AccessToken.MaxAge ≠ defaultAccessTokenTTL ∧
      cfg.Auth.JWT.RefreshToken.MaxAge = 0 ∧
      cfg.Auth.JWT.RefreshToken.MaxAge ≠ defaultRefreshTokenTTL :=
  ⟨by decide, by decide, by decide, by decide, exampleResolved, by decide, by decide, by decide,
    by decide, by decide⟩

/-- C8: two calls of `Init` in a row on the same directory, environment name and
files: the first returns port `"4051"` and code length 150 from the base file, the
second returns the defaults `"8000"` and 8. -/
theorem Init_twice_differs :
    (Init exampleFS strictDecoder "./fixture" "test" exampleWorld).1
      = .returned (some exampleResolved) none ∧
    (Init exampleFS strictDecoder "./fixture" "test"
        (Init exampleFS strictDecoder "./fixture" "test" exampleWorld).2).1
      = .returned (some exampleResolvedAgain) none ∧
    exampleResolved.HTTP.Port = "4051" ∧ exampleResolvedAgain.HTTP.Port = "8000" ∧
    exampleResolved ≠ exampleResolvedAgain :=
  ⟨by decide, by decide, by decide, by decide, by decide⟩

theorem deepMergeMap_atPath_none : ∀ (p : List String) (B E : Tree),
    E.uniqueKeys = true → B.atPath p = none → E.atPath p = none →
    (deepMergeMap B E).atPath p = none := by
  intro p
  induction p with
  | nil => intro B E _ h; simp [Tree.atPath, Value.atPath] at h
  | cons k ks ih =>
    intro B E hu hb he
    rw [Tree.atPath_cons] at hb he ⊢
    rw [deepMergeMap_get E B k (Tree.uniqueKeys_nodup E hu)]
    cases hg : E.get k with
    | none => simpa using hb
    | some ev =>
      simp only [hg, Option.bind_some] at he ⊢
      cases ev with
      | scalar s =>
        have : mergeEntry (B.get k) (.scalar s) = .scalar s := by
          unfold mergeEntry; split <;> simp_all
        rw [this]; exact he
      | tree em =>
        cases hbk : B.get k with
        | none => simpa [mergeEntry] using he
        | some bv =>
          cases bv with
          | scalar s => simpa [mergeEntry] using he
          | tree bm =>
            simp only [hbk, Option.bind_some] at hb
            simp only [mergeEntry]
            exact ih bm em (Tree.uniqueKeys_get E k em hu hg) hb he

/-- The token lifetimes are never defaulted: on a first resolution with two files
that both lack `jwt.access_token.max_age` (`jwt.refresh_token.max_age`), a
successful `Init` leaves `AccessToken.MaxAge` (`RefreshToken.MaxAge`) at zero,
because `populateDefault` stores its two lifetimes under `auth.…` keys. -/
theorem Init_token_max_age_not_defaulted (fs : FS) (dec : Decoder) (configsDir env : String)
    (w w2 : World) (B E : Tree) (cfg : Config)
    (hd : w.viper.defaults = .nil)
    (hB : fs.readConfig (w.viper.AddConfigPath configsDir).configPaths "main" = .ok B)
    (hE : fs.readConfig (w.viper.AddConfigPath configsDir).configPaths env = .ok E)
    (hBs : B.stored = true) (hEs : E.stored = true)
    (h : Init fs dec configsDir env w = (.returned (some cfg) none, w2)) :
    (B.atPath ["jwt", "access_token", "max_age"] = none →
      E.atPath ["jwt", "access_token", "max_age"] = none →
      cfg.Auth.JWT.AccessToken.MaxAge = 0) ∧
    (B.atPath ["jwt", "refresh_token", "max_age"] = none →
      E.atPath ["jwt", "refresh_token", "max_age"] = none →
      cfg.Auth.JWT.RefreshToken.MaxAge = 0) := by
  have hBu := Tree.stored_uniqueKeys B hBs
  have hEu := Tree.stored_uniqueKeys E hEs
  have key : ∀ f : Field, seededDefaults.atPath f.key = none →
      B.atPath f.key = none → E.atPath f.key = none → f.read cfg = f.read Config.zero := by
    intro f hseed hb he
    obtain ⟨_, k2, k3, _⟩ :=
      Init_first_resolution_field fs dec configsDir env w w2 B E cfg hd hB hE hBu hEu h f
    have hm : (deepMerge B [E]).atPath f.key = none := by
      rw [deepMerge_single]
      exact deepMergeMap_atPath_none f.key B E hEu hb he
    cases hs : (deepMerge B [E]).shadows f.key with
    | true => exact k3 hs
    | false => exact k2 hm hs hseed
  constructor
  · intro hb he
    have := key .accessMaxAge (by decide) hb he
    simpa [Field.read, Config.zero] using this
  · intro hb he
    have := key .refreshMaxAge (by decide) hb he
    simpa [Field.read, Config.zero] using this

end GoConfig
